import Mathlib

/-!
Verification of the NSCCN code-graph system (EliteMCP repository).

This file gives a shallow embedding, in Lean 4, of the core components of
the `src/nsccn` Python package — the SQLite-backed graph store
(`database.py`), the causal-flow traversal engine (`graph.py`), the hybrid
search fusion (`search.py`), the tree-sitter based structural parser
(`parser.py`), the embedding engine (`embeddings.py`), the tool layer
(`tools.py`) and the incremental graph builder (`watcher.py`) — and proves
or refutes the specification claims about them.

Modelling conventions:
* SQLite tables are modelled as Lean lists kept in rowid (insertion)
  order; `INSERT OR REPLACE` deletes the conflicting row and appends the
  new one at the end, which matches SQLite's rowid behaviour.
* Python `float` arithmetic is modelled with `ℚ`; the claims settled here
  depend only on facts that are robust to the float/rational distinction
  (exact small-denominator comparisons, or membership facts independent
  of score values).
* Recursion that Python bounds with a depth counter is modelled with an
  explicit fuel argument equal to the remaining depth budget plus one,
  so `fuel = 0` corresponds exactly to Python's `depth > max_depth` test.
-/

namespace NSCCN

/-! ## Data model (`database.py` schema) -/

/-- A row of the `entities` table.  `etype` is the `type` column. -/
structure Entity where
  id : String
  etype : String
  file_path : String
  name : String
  start_line : Nat
  end_line : Nat
  signature : String
  docstring : String
  embedding : Option (List ℚ)
  last_updated : ℚ := 0
  deriving Repr, DecidableEq

/-- A row of the `edges` table: `(source_id, relation, target_id, context)`,
primary key `(source_id, relation, target_id)`. -/
structure Edge where
  src : String
  rel : String
  tgt : String
  ctx : Option String
  deriving Repr, DecidableEq

/-- A row of the `skeletons` cache table. -/
structure Skel where
  file_path : String
  content : String
  last_modified : ℚ
  deriving Repr, DecidableEq

/-- The persistent store (`NSCCNDatabase`): three tables, each kept in
rowid (insertion) order. -/
structure Store where
  entities : List Entity
  edges : List Edge
  skeletons : List Skel
  deriving Repr, DecidableEq

/-! ## Graph store operations (`database.py`) -/

/-- `get_entity`: `SELECT * FROM entities WHERE id = ?` + `fetchone`. -/
def getEntity (db : Store) (entity_id : String) : Option Entity :=
  db.entities.find? (fun e => e.id = entity_id)

/-- `get_entities_by_file`: `SELECT * FROM entities WHERE file_path = ?`. -/
def getEntitiesByFile (db : Store) (fp : String) : List Entity :=
  db.entities.filter (fun e => e.file_path = fp)

/-- `delete_entities_by_file`: `DELETE FROM entities WHERE file_path = ?`. -/
def deleteEntitiesByFile (db : Store) (fp : String) : Store :=
  { db with entities := db.entities.filter (fun e => e.file_path ≠ fp) }

/-- One `INSERT OR REPLACE` into `entities`: the row with a conflicting
primary key `id` is deleted and the new row is appended (fresh rowid). -/
def upsertEntity (db : Store) (e : Entity) : Store :=
  { db with entities := db.entities.filter (fun x => x.id ≠ e.id) ++ [e] }

/-- `upsert_entities_batch`: `executemany` of `INSERT OR REPLACE`. -/
def upsertEntitiesBatch (db : Store) (es : List Entity) : Store :=
  es.foldl upsertEntity db

/-- One `INSERT OR REPLACE` into `edges`, keyed on
`(source_id, relation, target_id)`. -/
def upsertEdge (db : Store) (e : Edge) : Store :=
  { db with
    edges := db.edges.filter
        (fun x => ¬(x.src = e.src ∧ x.rel = e.rel ∧ x.tgt = e.tgt)) ++ [e] }

/-- `upsert_edges_batch`: `executemany` of `INSERT OR REPLACE`. -/
def upsertEdgesBatch (db : Store) (es : List Edge) : Store :=
  es.foldl upsertEdge db

/-- `get_edges_by_source` with an optional relation filter. -/
def getEdgesBySource (db : Store) (source_id : String)
    (relation : Option String) : List Edge :=
  match relation with
  | some r => db.edges.filter (fun e => e.src = source_id ∧ e.rel = r)
  | none => db.edges.filter (fun e => e.src = source_id)

/-- `get_edges_by_target` with an optional relation filter. -/
def getEdgesByTarget (db : Store) (target_id : String)
    (relation : Option String) : List Edge :=
  match relation with
  | some r => db.edges.filter (fun e => e.tgt = target_id ∧ e.rel = r)
  | none => db.edges.filter (fun e => e.tgt = target_id)

/-- `delete_edges_by_source`: `DELETE FROM edges WHERE source_id = ?`. -/
def deleteEdgesBySource (db : Store) (source_id : String) : Store :=
  { db with edges := db.edges.filter (fun e => e.src ≠ source_id) }

/-- `delete_skeleton`: `DELETE FROM skeletons WHERE file_path = ?`. -/
def deleteSkeleton (db : Store) (fp : String) : Store :=
  { db with skeletons := db.skeletons.filter (fun s => s.file_path ≠ fp) }

/-! ## Causal flow engine (`graph.py`, `CausalFlowEngine`)

`traverse_upstream` and `traverse_downstream` are textually identical
except for the direction of the edge lookup (`get_edges_by_target` /
`get_edges_by_source`) and which endpoint of each edge is recorded and
recursed into, so they are modelled as two instances of one generic
traversal `travGo`.  The Python recursion carries `current_depth` and
stops when `current_depth > depth`; the model carries the remaining
budget `fuel = depth - current_depth + 1`, so `fuel = 0` is exactly
Python's `current_depth > depth`. -/

/-- The per-entity snapshot stored in `entities_info`. -/
structure EntInfo where
  id : String
  etype : String
  name : String
  file_path : String
  signature : String
  deriving Repr, DecidableEq

/-- The snapshot taken from a database row (`graph.py` lines 52–59). -/
def entInfoOf (e : Entity) : EntInfo :=
  ⟨e.id, e.etype, e.name, e.file_path, e.signature⟩

/-- The traversal's mutable state: the `visited` set (in visit order),
`adjacency_list` (keyed insertion-ordered dict of
`{'target': _, 'relation': _}` pairs) and `entities_info`. -/
structure TravAcc where
  visited : List String
  adj : List (String × List (String × String))
  ents : List (String × EntInfo)
  deriving Repr, DecidableEq

/-- `if current_id not in adjacency_list: adjacency_list[current_id] = []`. -/
def adjInit (adj : List (String × List (String × String))) (k : String) :
    List (String × List (String × String)) :=
  if adj.any (fun p => p.1 = k) then adj else adj ++ [(k, [])]

/-- `adjacency_list[current_id].append(item)`. -/
def adjPush (adj : List (String × List (String × String))) (k : String)
    (x : String × String) : List (String × List (String × String)) :=
  adj.map (fun p => (p.1, if p.1 = k then p.2 ++ [x] else p.2))

/-- Downstream neighbour records: for each outgoing CALLS edge, the pair
recorded in the adjacency list (`{'target': edge.target_id, 'relation':
edge.relation}`), which is also the id recursed into. -/
def downNeighbors (db : Store) (id : String) : List (String × String) :=
  (getEdgesBySource db id (some "CALLS")).map (fun e => (e.tgt, e.rel))

/-- Upstream neighbour records: for each incoming CALLS edge, the pair
`{'target': edge.source_id, 'relation': edge.relation}`. -/
def upNeighbors (db : Store) (id : String) : List (String × String) :=
  (getEdgesByTarget db id (some "CALLS")).map (fun e => (e.src, e.rel))

/-- The inner `traverse(current_id, current_depth)` of both traversals,
generic in the neighbour function.  Matches `graph.py` lines 44–75 /
103–134: depth/visited guard, mark visited, snapshot the entity if it has
a row, create the adjacency entry, then for each edge append the record
and recurse with one less budget. -/
def travGo (db : Store) (nbrs : Store → String → List (String × String)) :
    Nat → String → TravAcc → TravAcc
  | 0, _, acc => acc
  | fuel + 1, id, acc =>
    if id ∈ acc.visited then acc
    else
      let acc1 := { acc with visited := acc.visited ++ [id] }
      let acc2 := match getEntity db id with
        | some e => { acc1 with ents := acc1.ents ++ [(id, entInfoOf e)] }
        | none => acc1
      let acc3 := { acc2 with adj := adjInit acc2.adj id }
      (nbrs db id).foldl
        (fun a n => travGo db nbrs fuel n.1 { a with adj := adjPush a.adj id n })
        acc3

/-- The dictionary returned by `traverse_upstream`/`traverse_downstream`. -/
structure TravResult where
  root : String
  direction : String
  depth : Nat
  adjacency_list : List (String × List (String × String))
  entities : List (String × EntInfo)
  deriving Repr, DecidableEq

/-- `CausalFlowEngine.traverse_downstream` (with the engine's configured
`max_depth` as an explicit parameter; default 3). -/
def traverseDownstream (db : Store) (maxDepth : Nat) (entity_id : String)
    (depth : Nat) : TravResult :=
  let d := min depth maxDepth
  let acc := travGo db downNeighbors (d + 1) entity_id ⟨[], [], []⟩
  ⟨entity_id, "downstream", d, acc.adj, acc.ents⟩

/-- `CausalFlowEngine.traverse_upstream`. -/
def traverseUpstream (db : Store) (maxDepth : Nat) (entity_id : String)
    (depth : Nat) : TravResult :=
  let d := min depth maxDepth
  let acc := travGo db upNeighbors (d + 1) entity_id ⟨[], [], []⟩
  ⟨entity_id, "upstream", d, acc.adj, acc.ents⟩

/-- The inner `dfs(current_id, path, depth)` of `trace_path`, threading
the shared `visited` set.  Check order matches the source exactly: depth
budget first, then the target test, then the visited test, then
expansion over CALLS edges with early exit on the first found path. -/
def tracePathGo (db : Store) (target_id : String) :
    Nat → String → List String → List String →
      Option (List String) × List String
  | 0, _, _, visited => (none, visited)
  | fuel + 1, current, path, visited =>
    if current = target_id then (some (path ++ [current]), visited)
    else if current ∈ visited then (none, visited)
    else
      let visited1 := visited ++ [current]
      (getEdgesBySource db current (some "CALLS")).foldl
        (fun r e =>
          match r with
          | (some p, vis) => (some p, vis)
          | (none, vis) =>
              tracePathGo db target_id fuel e.tgt (path ++ [current]) vis)
        (none, visited1)

/-- `CausalFlowEngine.trace_path` (with `max_depth = None` resolved to the
engine's configured maximum, default 3, as the default argument). -/
def tracePath (db : Store) (source_id target_id : String)
    (max_depth : Nat := 3) : Option (List String) :=
  (tracePathGo db target_id (max_depth + 1) source_id [] []).1

/-- Bounded reachability in at most `n` steps along a step function:
the graph-theoretic relation underlying the traversals. -/
def reachW (s : String → List String) : Nat → String → String → Prop
  | 0, a, b => a = b
  | n + 1, a, b => a = b ∨ ∃ c ∈ s a, reachW s n c b

/-- The CALLS successor map (outgoing edges by source). -/
def downStep (db : Store) (id : String) : List String :=
  (getEdgesBySource db id (some "CALLS")).map (fun e => e.tgt)

/-- The CALLS predecessor map (incoming edges by target). -/
def upStep (db : Store) (id : String) : List String :=
  (getEdgesByTarget db id (some "CALLS")).map (fun e => e.src)

/-! ## Hybrid search fusion (`search.py`, `HybridSearchEngine._rrf_fuse`)

`_rrf_fuse` builds `scores[id] = 1/(k + lex_rank) + 1/(k + sem_rank)` over
the union of the two key sets, using the default rank 1000 for an id
missing from one stream, then sorts descending by score.  Python iterates
a hash `set` for the union — an unspecified order; we fix the
first-occurrence order of `lex ++ sem`, which changes nothing provable
here because each id's score is order-independent and the sort is by
score.  Python's `sorted` is stable; `insertion sort keeping earlier
elements first on ties` models it. -/

/-- `ranks.get(entity, 1000)`: lookup with the default high rank. -/
def rankOf (ranks : List (String × Nat)) (id : String) : Nat :=
  match ranks.lookup id with
  | some r => r
  | none => 1000

/-- First-occurrence deduplication (models iterating the key set union). -/
def dedupKeys : List String → List String
  | [] => []
  | x :: xs => if x ∈ xs then dedupKeys xs else x :: dedupKeys xs

/-- Stable insertion of one scored item into a descending list: an item
moves before `y` only when its score is strictly greater, so equal-score
items keep their original relative order (Python `sorted` is stable). -/
def insertDesc (x : String × ℚ) : List (String × ℚ) → List (String × ℚ)
  | [] => [x]
  | y :: ys => if x.2 > y.2 then x :: y :: ys else y :: insertDesc x ys

/-- Stable descending sort by score. -/
def sortScoresDesc : List (String × ℚ) → List (String × ℚ)
  | [] => []
  | x :: xs => insertDesc x (sortScoresDesc xs)

/-- `HybridSearchEngine._rrf_fuse`.  Note `dedupKeys` keeps the *last*
occurrence; Python's set-union iteration order is unspecified, and no
claim settled here depends on the order of equal-score entries. -/
def rrfFuse (lexical_ranks semantic_ranks : List (String × Nat)) (k : Nat) :
    List (String × ℚ) :=
  let all_entities := dedupKeys
    (lexical_ranks.map Prod.fst ++ semantic_ranks.map Prod.fst)
  let scores := all_entities.map (fun id =>
    (id, (1 : ℚ) / (k + rankOf lexical_ranks id)
       + (1 : ℚ) / (k + rankOf semantic_ranks id)))
  sortScoresDesc scores

/-! Concrete store for claim C4: the CALLS graph
`A→F, X2→F, B→A, X2→B, X1→X2, E→X1` (edges listed in insertion order).
Downstream from `E` the path `E→X1→X2→F` has length 3, so `F` is visited
at depth 3; upstream from `F` the caller `A` is expanded first, which
makes `X2` first reachable only at depth 3, so `X2`'s caller `X1` is cut
off by the depth bound and `E` is never reached. -/

/-- The six-edge CALLS store of the C4 counterexample. -/
def c4Store : Store :=
  ⟨[],
   [⟨"A", "CALLS", "F", none⟩, ⟨"X2", "CALLS", "F", none⟩,
    ⟨"B", "CALLS", "A", none⟩, ⟨"X2", "CALLS", "B", none⟩,
    ⟨"X1", "CALLS", "X2", none⟩, ⟨"E", "CALLS", "X1", none⟩],
   []⟩

/-! ## Structural parser (`parser.py`, `CodeParser`)

The parser walks a tree-sitter parse tree.  A tree-sitter node is
modelled by its `type`, its source text (`source_code[start:end]`,
decoded), its 0-based start row (`start_point[0]`), and its ordered child
list, each child optionally carrying a field name
(`child_by_field_name`).  The grammar itself (text → tree) is the
external `tree_sitter_languages` package; the claims below quantify over
trees. -/

mutual

/-- A tree-sitter syntax node: type, text, start row, children. -/
inductive TSNode where
  | mk : String → String → Nat → TSChildren → TSNode

/-- Ordered child list; each child may carry a grammar field name. -/
inductive TSChildren where
  | nil : TSChildren
  | cons : Option String → TSNode → TSChildren → TSChildren

end

/-- `node.type`. -/
def TSNode.ty : TSNode → String
  | .mk t _ _ _ => t

/-- `source_code[node.start_byte:node.end_byte].decode('utf-8')`. -/
def TSNode.text : TSNode → String
  | .mk _ s _ _ => s

/-- `node.start_point[0]` (0-based row). -/
def TSNode.row : TSNode → Nat
  | .mk _ _ r _ => r

/-- The raw child list. -/
def TSNode.childrenC : TSNode → TSChildren
  | .mk _ _ _ c => c

/-- Child list as pairs `(field?, node)`. -/
def TSChildren.toList : TSChildren → List (Option String × TSNode)
  | .nil => []
  | .cons f n rest => (f, n) :: rest.toList

/-- `node.children`. -/
def TSNode.children (n : TSNode) : List TSNode :=
  n.childrenC.toList.map Prod.snd

/-- `node.child_by_field_name(f)`: the first child carrying field `f`. -/
def TSNode.childByField (n : TSNode) (f : String) : Option TSNode :=
  (n.childrenC.toList.find? (fun p => p.1 = some f)).map Prod.snd

/-- An `entity_stack` entry: `{'type': _, 'id': _, 'name': _}`. -/
structure StackEntry where
  sty : String
  id : String
  name : String
  deriving Repr, DecidableEq

/-- The in-place-mutating method names of `_extract_edges`. -/
def mutatingMethods : List String :=
  ["append", "extend", "insert", "update", "add", "remove", "pop",
   "clear", "discard"]

/-- `add_mutates`: emits only when the entity stack is non-empty; the
source is the innermost enclosing entity (stack top). -/
def addMutates (stack : List StackEntry) (target_id : String)
    (line_no : Nat) (mut_type : String) : List Edge :=
  match stack with
  | [] => []
  | top :: _ =>
    [⟨top.id, "MUTATES", target_id,
      some ("line:" ++ toString line_no ++ " type:" ++ mut_type)⟩]

/-- `add_reads_config`: emits only when the entity stack is non-empty. -/
def addReadsConfig (stack : List StackEntry) (config_id : String)
    (line_no : Nat) (access_method : String) : List Edge :=
  match stack with
  | [] => []
  | top :: _ =>
    [⟨top.id, "READS_CONFIG", config_id,
      some ("line:" ++ toString line_no ++ " via:" ++ access_method)⟩]

/-- The first `string_content` grandchild of a string node (the
`for string_part in arg_child.children: … break` pattern). -/
def firstStringContent (c : TSNode) : Option String :=
  (c.children.find? (fun sp => sp.ty = "string_content")).map
    (fun sp => sp.text)

/-- Emissions of the `READS_CONFIG` env-var scan over the call's
`arguments` node: one edge per `string` child that has a
`string_content`, in child order. -/
def envArgEdges (stack : List StackEntry) (args : TSNode)
    (line_no : Nat) (access_method : String) : List Edge :=
  ((args.children.filter (fun c => c.ty = "string")).map (fun c =>
    match firstStringContent c with
    | some env_var =>
        addReadsConfig stack ("config:env:" ++ env_var) line_no
          access_method
    | none => [])).flatten

/-- The MUTATES block inside the `call` branch (`parser.py` lines
251–265): a mutating method invoked on a bare-name or attribute
receiver. -/
def callMutatesEdges (fp : String) (stack : List StackEntry)
    (fn : TSNode) (method_name : String) : List Edge :=
  if method_name ∈ mutatingMethods then
    match fn.childByField "object" with
    | none => []
    | some obj =>
      let line_no := fn.row + 1
      if obj.ty = "identifier" then
        addMutates stack ("var:" ++ fp ++ ":" ++ obj.text) line_no
          "method_call"
      else if obj.ty = "attribute" then
        match obj.childByField "attribute" with
        | some sub_attr =>
            addMutates stack ("attr:" ++ fp ++ ":" ++ sub_attr.text)
              line_no "method_call"
        | none => []
      else []
  else []

/-- The READS_CONFIG block inside the `call` branch (`parser.py` lines
267–304): `os.getenv('VAR')` and `os.environ.get('VAR')`. -/
def callReadsEdges (stack : List StackEntry) (n fn : TSNode)
    (method_name : String) : List Edge :=
  match fn.childByField "object" with
  | none => []
  | some obj =>
    if method_name = "getenv" ∧ obj.ty = "identifier" then
      if obj.text = "os" then
        match n.childByField "arguments" with
        | some args => envArgEdges stack args (n.row + 1) "os.getenv"
        | none => []
      else []
    else if method_name = "get" ∧ obj.ty = "attribute" then
      match obj.childByField "object", obj.childByField "attribute" with
      | some sub_obj, some sub_attr =>
        if sub_obj.text = "os" ∧ sub_attr.text = "environ" then
          match n.childByField "arguments" with
          | some args =>
              envArgEdges stack args (n.row + 1) "os.environ.get"
          | none => []
        else []
      | _, _ => []
    else []

/-- All edges emitted at a `call` node (`parser.py` lines 235–304):
`CALLS` to a bare name or a wildcard method target, then the `MUTATES`
block, then the `READS_CONFIG` block, in the order the source appends
them. -/
def callEdges (fp : String) (stack : List StackEntry) (n : TSNode) :
    List Edge :=
  match stack with
  | [] => []
  | top :: _ =>
    let caller_id := top.id
    match n.childByField "function" with
    | none => []
    | some fn =>
      if fn.ty = "identifier" then
        [⟨caller_id, "CALLS", "func:" ++ fp ++ ":" ++ fn.text, none⟩]
      else if fn.ty = "attribute" then
        match fn.childByField "attribute" with
        | none => []
        | some attr =>
          let method_name := attr.text
          [(⟨caller_id, "CALLS",
              "method:" ++ fp ++ ":*." ++ method_name, none⟩ : Edge)] ++
            callMutatesEdges fp stack fn method_name ++
            callReadsEdges stack n fn method_name
      else []

/-- Edges emitted at an `assignment`/`augmented_assignment` node
(`parser.py` lines 311–325). -/
def assignEdges (fp : String) (stack : List StackEntry) (n : TSNode) :
    List Edge :=
  match n.childByField "left" with
  | none => []
  | some left =>
    if left.ty = "identifier" then
      addMutates stack ("var:" ++ fp ++ ":" ++ left.text) (left.row + 1)
        n.ty
    else if left.ty = "attribute" then
      match left.childByField "attribute" with
      | some attr =>
          addMutates stack ("attr:" ++ fp ++ ":" ++ attr.text)
            (left.row + 1) n.ty
      | none => []
    else []

/-- Edges emitted at a `subscript` node for `os.environ['VAR']`
(`parser.py` lines 332–350). -/
def subscriptEdges (_fp : String) (stack : List StackEntry) (n : TSNode) :
    List Edge :=
  if n.ty = "subscript" then
    match n.childByField "value" with
    | some v =>
      if v.ty = "attribute" then
        match v.childByField "object", v.childByField "attribute" with
        | some obj, some attr =>
          if obj.text = "os" ∧ attr.text = "environ" then
            envArgEdges stack n (n.row + 1) "os.environ[]"
          else []
        | _, _ => []
      else []
    | none => []
  else []

/-- Python `str.isupper()` (ASCII approximation): at least one letter and
no lowercase letter. -/
def pyIsUpper (s : String) : Bool :=
  s.toList.any (fun c => c.isAlpha) && s.toList.all (fun c => !c.isLower)

/-- Edges emitted at an `identifier` node for all-uppercase constant
references (`parser.py` lines 353–362); `pty` is `node.parent.type`. -/
def identifierEdges (pty : Option String) (stack : List StackEntry)
    (n : TSNode) : List Edge :=
  if n.ty = "identifier" ∧ stack ≠ [] then
    let identifier_name := n.text
    if pyIsUpper identifier_name ∧ identifier_name.length > 2 ∧
        identifier_name.toList.contains '_' then
      match pty with
      | some pt =>
        if pt ≠ "class_definition" ∧ pt ≠ "function_definition" ∧
            pt ≠ "import_from_statement" then
          addReadsConfig stack ("config:const:" ++ identifier_name)
            (n.row + 1) "constant"
        else []
      | none => []
    else []
  else []

/-- INHERITS edges: one per `identifier` child of the `superclasses`
node (`parser.py` lines 222–228). -/
def inheritsEdges (fp : String) (entity_id : String) (sup : TSNode) :
    List Edge :=
  (sup.children.filter (fun c => c.ty = "identifier")).map (fun c =>
    ⟨entity_id, "INHERITS", "class:" ++ fp ++ ":" ++ c.text, none⟩)

mutual

/-- The `walk(node)` of `CodeParser._extract_edges`, with the parent's
node type threaded explicitly (Python reads `node.parent`) and the
`entity_stack` passed functionally (top = head).  A `function_definition`
or `class_definition` without a `name` field falls through the branch
chain to the generic child recursion, where the subscript/identifier
emissions are no-ops for those node types. -/
def walkNode (fp : String) (pty : Option String)
    (stack : List StackEntry) : TSNode → List Edge
  | n@(.mk nty _ _ cs) =>
    if nty = "function_definition" then
      match n.childByField "name" with
      | some nm =>
        let func_name := nm.text
        let entity_id :=
          match stack with
          | top :: _ =>
            if top.sty = "class" then
              "method:" ++ fp ++ ":" ++ top.name ++ "." ++ func_name
            else "func:" ++ fp ++ ":" ++ func_name
          | [] => "func:" ++ fp ++ ":" ++ func_name
        walkChildren fp (some nty)
          (⟨"function", entity_id, func_name⟩ :: stack) cs
      | none => walkChildren fp (some nty) stack cs
    else if nty = "class_definition" then
      match n.childByField "name" with
      | some nm =>
        let class_name := nm.text
        let entity_id := "class:" ++ fp ++ ":" ++ class_name
        let inh :=
          match n.childByField "superclasses" with
          | some sup => inheritsEdges fp entity_id sup
          | none => []
        inh ++ walkChildren fp (some nty)
          (⟨"class", entity_id, class_name⟩ :: stack) cs
      | none => walkChildren fp (some nty) stack cs
    else if nty = "call" then
      callEdges fp stack n ++ walkChildren fp (some nty) stack cs
    else if nty = "assignment" ∨ nty = "augmented_assignment" then
      assignEdges fp stack n ++ walkChildren fp (some nty) stack cs
    else
      subscriptEdges fp stack n ++ identifierEdges pty stack n ++
        walkChildren fp (some nty) stack cs

/-- `for child in node.children: walk(child)`, in order. -/
def walkChildren (fp : String) (pty : Option String)
    (stack : List StackEntry) : TSChildren → List Edge
  | .nil => []
  | .cons _ c rest =>
      walkNode fp pty stack c ++ walkChildren fp pty stack rest

end

/-- `CodeParser._extract_edges`: walk from the root with an empty entity
stack (the root has no parent). -/
def extractEdges (fp : String) (tree : TSNode) : List Edge :=
  walkNode fp none [] tree

/-- The apostrophe character (used by the docstring quote stripping). -/
def squote : Char := Char.ofNat 39

/-- Python `str.strip(chars)`: remove the given characters from both
ends. -/
def stripChars (s : String) (cs : List Char) : String :=
  String.mk
    (((s.toList.dropWhile (fun c => c ∈ cs)).reverse.dropWhile
        (fun c => c ∈ cs)).reverse)

/-- Python `str.strip()` (whitespace strip). -/
def pyStripWs (s : String) : String :=
  String.mk
    (((s.toList.dropWhile Char.isWhitespace).reverse.dropWhile
        Char.isWhitespace).reverse)

/-- The scan of `_extract_docstring`: the first `expression_statement`
child that has a `string` grandchild yields that grandchild's raw text;
an `expression_statement` without one does not stop the scan. -/
def firstDocString : List TSNode → Option String
  | [] => none
  | c :: rest =>
    if c.ty = "expression_statement" then
      match c.children.find? (fun g => g.ty = "string") with
      | some g => some g.text
      | none => firstDocString rest
    else firstDocString rest

/-- `CodeParser._extract_docstring`: find the raw string and strip the
surrounding quotes (`.strip('\"\"\"').strip(\"''\").strip('\"')
.strip(\"'\").strip()` — each `strip` removes a character set from both
ends) . -/
def extractDocstring (n : TSNode) : String :=
  match n.childByField "body" with
  | none => ""
  | some body =>
    match firstDocString body.children with
    | none => ""
    | some raw =>
      pyStripWs
        (stripChars
          (stripChars (stripChars (stripChars raw ['"']) [squote]) ['"'])
          [squote])

/-- `"    " * indent`. -/
def pyIndent (indent : Nat) : String :=
  String.join (List.replicate indent "    ")

/-- Any child is structurally smaller than its child list (termination
helper for the skeleton walker, whose recursion goes through
`child_by_field_name('body')`). -/
theorem sizeOf_mem_toList :
    ∀ (cs : TSChildren) (p : Option String × TSNode), p ∈ cs.toList →
      sizeOf p.2 < sizeOf cs
  | .cons f n rest, p, hp => by
    rcases List.mem_cons.mp (by simpa [TSChildren.toList] using hp) with
      h | h
    · subst h
      simp
      omega
    · have := sizeOf_mem_toList rest p h
      simp
      omega

/-- A field child is structurally smaller than its parent node. -/
theorem sizeOf_childByField {n c : TSNode} {f : String}
    (h : n.childByField f = some c) : sizeOf c < sizeOf n := by
  rcases n with ⟨ty, tx, r, cs⟩
  simp only [TSNode.childByField, Option.map_eq_some'] at h
  rcases h with ⟨p, hp, rfl⟩
  have hmem := List.mem_of_find?_eq_some hp
  have := sizeOf_mem_toList _ _ hmem
  simp only [TSNode.childrenC] at this ⊢
  simp
  omega

/-- A node's child list is structurally smaller than the node. -/
theorem sizeOf_childrenC (n : TSNode) : sizeOf n.childrenC < sizeOf n := by
  rcases n with ⟨ty, tx, r, cs⟩
  simp [TSNode.childrenC]

mutual

/-- The `walk(node, indent)` of `CodeParser.generate_skeleton`: class
headers with docstring and a one-level recursion into the class body,
function headers with docstring and a single `...` elision in place of
the body (no recursion into it), imports verbatim, and at module level a
generic descent into children. -/
def skelNode (fp : String) (n : TSNode) (indent : Nat) : List String :=
  let indent_str := pyIndent indent
  if n.ty = "class_definition" then
    match n.childByField "name" with
    | none => []
    | some nm =>
      let header :=
        match n.childByField "superclasses" with
        | some sup => indent_str ++ "class " ++ nm.text ++ sup.text ++ ":"
        | none => indent_str ++ "class " ++ nm.text ++ ":"
      let doc := extractDocstring n
      let docLines :=
        if doc ≠ "" then
          [indent_str ++ "    \"\"\"" ++ doc ++ "\"\"\""]
        else []
      let bodyLines :=
        match hb : n.childByField "body" with
        | some body => skelChildren fp body.childrenC (indent + 1)
        | none => []
      header :: (docLines ++ bodyLines ++ [""])
  else if n.ty = "function_definition" then
    match n.childByField "name" with
    | none => []
    | some nm =>
      let params :=
        match n.childByField "parameters" with
        | some p => p.text
        | none => ""
      let ret :=
        match n.childByField "return_type" with
        | some r => r.text
        | none => ""
      let signature := indent_str ++ "def " ++ nm.text ++ params ++
        (if ret ≠ "" then " -> " ++ ret else "") ++ ":"
      let doc := extractDocstring n
      let docLines :=
        if doc ≠ "" then
          [indent_str ++ "    \"\"\"" ++ doc ++ "\"\"\""]
        else []
      signature :: (docLines ++ [indent_str ++ "    ..."] ++ [""])
  else if n.ty = "import_statement" ∨ n.ty = "import_from_statement" then
    [indent_str ++ n.text]
  else if indent = 0 then skelChildren fp n.childrenC 0
  else []
termination_by sizeOf n
decreasing_by
  · exact Nat.lt_trans (sizeOf_childrenC _) (sizeOf_childByField hb)
  · exact sizeOf_childrenC n

/-- `for child in …: walk(child, indent)`, in order. -/
def skelChildren (fp : String) (cs : TSChildren) (indent : Nat) :
    List String :=
  match cs with
  | .nil => []
  | .cons _ c rest =>
      skelNode fp c indent ++ skelChildren fp rest indent
termination_by sizeOf cs
decreasing_by
  · simp
    omega
  · simp

end

/-- The line list built by `generate_skeleton`: the `# file` header, a
blank line, then the walk from the root at indent 0. -/
def skelLines (fp : String) (tree : TSNode) : List String :=
  ("# " ++ fp) :: "" :: skelNode fp tree 0

/-- `CodeParser.generate_skeleton` (successful case): the lines joined
with newlines. -/
def generateSkeleton (fp : String) (tree : TSNode) : String :=
  String.intercalate "\n" (skelLines fp tree)

/-- Build a child list from a plain list. -/
def TSChildren.ofList : List (Option String × TSNode) → TSChildren
  | [] => .nil
  | (f, n) :: rest => .cons f n (TSChildren.ofList rest)

/-- Convenience constructor for concrete trees. -/
def tsNode (ty text : String) (row : Nat)
    (children : List (Option String × TSNode)) : TSNode :=
  .mk ty text row (TSChildren.ofList children)

/-- The parse tree of the phase-3 failing input

```
def validate(data):
    """Validate data structure."""
    if not data:
        raise ValidationError("Empty data")
    return True
```

shaped as tree-sitter's Python grammar shapes it (rows 0-based). -/
def c2Tree : TSNode :=
  tsNode "module" "" 0
    [(none, tsNode "function_definition" "" 1
      [(some "name", tsNode "identifier" "validate" 1 []),
       (some "parameters", tsNode "parameters" "(data)" 1 []),
       (some "body", tsNode "block" "" 2
         [(none, tsNode "expression_statement" "" 2
            [(none, tsNode "string"
               "\"\"\"Validate data structure.\"\"\"" 2
               [(none, tsNode "string_content" "Validate data structure."
                  2 [])])]),
          (none, tsNode "if_statement" "" 3
            [(none, tsNode "raise_statement" "" 4
               [(none, tsNode "call" "" 4
                  [(some "function",
                     tsNode "identifier" "ValidationError" 4 []),
                   (some "arguments",
                     tsNode "argument_list" "(\"Empty data\")" 4
                       [(none, tsNode "string" "\"Empty data\"" 4
                          [(none, tsNode "string_content" "Empty data" 4
                             [])])])])])]),
          (none, tsNode "return_statement" "return True" 5 [])])])]

/-- Concrete function node for the C8 witness:
`def greet(name):` with docstring `Say hello.` and a two-statement
body. -/
def c8Fn : TSNode :=
  tsNode "function_definition" "" 1
    [(some "name", tsNode "identifier" "greet" 1 []),
     (some "parameters", tsNode "parameters" "(name)" 1 []),
     (some "body", tsNode "block" "" 2
       [(none, tsNode "expression_statement" "" 2
          [(none, tsNode "string" "\"\"\"Say hello.\"\"\"" 2
             [(none, tsNode "string_content" "Say hello." 2 [])])]),
        (none, tsNode "expression_statement" "x = 1" 3 []),
        (none, tsNode "return_statement" "return x" 4 [])])]

/-- Store for claim C5: one real entity `func:f.py:a` whose only CALLS
edge targets the wildcard pseudo-entity `method:f.py:*.foo`, which has no
Entity row. -/
def c5Store : Store :=
  ⟨[⟨"func:f.py:a", "function", "f.py", "a", 1, 2, "def a()", "", none, 0⟩],
   [⟨"func:f.py:a", "CALLS", "method:f.py:*.foo", none⟩],
   []⟩

/-! ## Embedding engine (`embeddings.py`) and semantic search
(`database.py`, `search_entities_by_embedding`)

The embedding provider (fastembed) is external; it is modelled as a
function that either yields a vector or fails.  `numpy` float arithmetic
is modelled over `ℚ`; the cosine denominator uses `sqrt`, which has no
rational value, so the stored score is the sqrt-free surrogate
`dot/(Σq²·Σe²)` — every claim settled here (exclusion of zero-norm or
missing embeddings) is independent of the score values, and the
positivity test `norm > 0` is equivalent to `Σ x² > 0`. -/

/-- `EmbeddingEngine.embed_text`: embed, truncate to the configured
dimension (MRL); on provider failure, return a zero vector of the
configured dimension. -/
def embedText (provider : String → Except String (List ℚ)) (dim : Nat)
    (text : String) : List ℚ :=
  match provider text with
  | .ok emb => if emb.length > dim then emb.take dim else emb
  | .error _ => List.replicate dim 0

/-- `Σ x²` (the square of `np.linalg.norm`). -/
def sumSq (v : List ℚ) : ℚ := (v.map (fun x => x * x)).sum

/-- `np.dot` on equal-length vectors. -/
def dotQ (a b : List ℚ) : ℚ := (List.zipWith (fun x y => x * y) a b).sum

/-- `NSCCNDatabase.search_entities_by_embedding`: keep the rows with a
stored embedding whose norm is positive (and positive query norm), score
them, sort descending (Python's stable `sort`), keep the top `limit`,
and resolve each id back to its entity row. -/
def searchEntitiesByEmbedding (db : Store) (query : List ℚ)
    (limit : Nat) : List (Entity × ℚ) :=
  let results := db.entities.filterMap (fun ent =>
    match ent.embedding with
    | none => none
    | some emb =>
      if sumSq emb > 0 ∧ sumSq query > 0 then
        some (ent.id, dotQ query emb / (sumSq query * sumSq emb))
      else none)
  let sorted := sortScoresDesc results
  (sorted.take limit).filterMap (fun r =>
    match getEntity db r.1 with
    | some ent => some (ent, r.2)
    | none => none)

/-- Store for the C6 witness: one entity with a zero-norm embedding and
one with a usable embedding. -/
def c6Store : Store :=
  ⟨[⟨"func:f.py:z", "function", "f.py", "z", 1, 1, "def z()", "",
      some [0], 0⟩,
    ⟨"func:f.py:g", "function", "f.py", "g", 2, 2, "def g()", "",
      some [1], 0⟩],
   [], []⟩

/-! ## Tool layer (`tools.py`, `NSCCNTools.open_surgical_window`)

The filesystem is an explicit input: a map from path to the file's lines
(without trailing newlines; the code reads with `readlines()` and strips
each line's `'\n'`).  The tool never raises: the Python `except` branch
converts any failure — including an unreadable file — into an
`{'error': …}` payload, modelled by the `err` constructor. -/

/-- The JSON payload of `open_surgical_window`: either `{'error': msg}`
or `{entity_id, file, start, end, code}`. -/
inductive SurgResult where
  | err (msg : String)
  | ok (entity_id file : String) (start_line end_line : Nat)
      (code : String)
  deriving Repr, DecidableEq

/-- Python `f"{n:4d}"`: decimal, right-aligned to width 4. -/
def pad4 (n : Nat) : String :=
  let s := toString n
  String.mk (List.replicate (4 - s.length) ' ') ++ s

/-- `NSCCNTools.open_surgical_window`.  `context_start` is Python's
`max(0, start_line - 1 - context_lines)` (truncated `Nat` subtraction),
`context_end` is `min(len(lines), end_line + context_lines)`; each
emitted line is `f"{i+1:4d} | {lines[i]}"`. -/
def openSurgicalWindow (db : Store) (fs : List (String × List String))
    (entity_id : String) (context_lines : Nat) : SurgResult :=
  match getEntity db entity_id with
  | none => .err ("Entity not found: " ++ entity_id)
  | some entity =>
    match fs.lookup entity.file_path with
    | none => .err ("file read failed: " ++ entity.file_path)
    | some lines =>
      let context_start := entity.start_line - 1 - context_lines
      let context_end :=
        min lines.length (entity.end_line + context_lines)
      let result_lines :=
        (List.range' context_start (context_end - context_start)).map
          (fun i => pad4 (i + 1) ++ " | " ++ ((lines.get? i).getD ""))
      .ok entity_id entity.file_path entity.start_line entity.end_line
        (String.intercalate "\n" result_lines)

/-- Modelled from the spec's words for C9's window description: `code`
is the entity's lines plus `context_lines` of context on each side,
clipped to the file boundaries, each line prefixed with its 1-based line
number — i.e. the rendered lines run from `max(1, start - context)` to
`min(file length, end + context)` inclusive, each formatted as
`f"{n:4d} | {content of line n}"`. -/
def specWindowCode (lines : List String) (s e c : Nat) : String :=
  String.intercalate "\n"
    ((List.range' (max 1 (s - c))
        (min lines.length (e + c) + 1 - max 1 (s - c))).map
      (fun ln => pad4 ln ++ " | " ++ ((lines.get? (ln - 1)).getD "")))

/-- Store and filesystem of the C9 counterexample/witness: the entity
`func:g.py:f` spans lines 2–3 of a five-line file. -/
def c9Store : Store :=
  ⟨[⟨"func:g.py:f", "function", "g.py", "f", 2, 3, "def f()", "",
      none, 0⟩],
   [], []⟩

/-- The five-line file `g.py`. -/
def c9Fs : List (String × List String) :=
  [("g.py", ["import os", "def f():", "    return 1", "", "x = f()"])]

/-! ## Incremental graph builder (`watcher.py`,
`IncrementalGraphBuilder._handle_file_updated`)

Parsing and embedding are external per-file steps; the handler takes the
parse result (`None` models a parse failure) and the embedder as
inputs.  `removed_ids` is a Python set difference; deletions commute, so
it is modelled as the filtered existing-id list. -/

/-- The parser's per-file output consumed by the builder. -/
structure ParseResult where
  entities : List Entity
  edges : List Edge
  deriving Repr, DecidableEq

/-- `existing_ids - new_ids`: the ids whose entities disappear in the
new parse. -/
def removedIds (db : Store) (file_path : String) (pr : ParseResult) :
    List String :=
  ((getEntitiesByFile db file_path).map (fun e => e.id)).filter
    (fun i => i ∉ pr.entities.map (fun e => e.id))

/-- `IncrementalGraphBuilder._handle_file_updated`: skip a missing or
unparseable file; delete the edges of the *removed* entity ids only;
delete all entities of the file; embed and batch-upsert the new
entities; batch-upsert the new edges; invalidate the skeleton cache. -/
def handleFileUpdated (db : Store) (file_path : String)
    (fileExists : Bool) (parse_result : Option ParseResult)
    (embed : Entity → Option (List ℚ)) : Store :=
  if !fileExists then db
  else
    match parse_result with
    | none => db
    | some pr =>
      let db1 := (removedIds db file_path pr).foldl
        (fun s i => deleteEdgesBySource s i) db
      let db2 := deleteEntitiesByFile db1 file_path
      let db3 :=
        if pr.entities ≠ [] then
          upsertEntitiesBatch db2
            (pr.entities.map (fun e => { e with embedding := embed e }))
        else db2
      let db4 :=
        if pr.edges ≠ [] then upsertEdgesBatch db3 pr.edges else db3
      deleteSkeleton db4 file_path

/-- Old store of the C1 counterexample: entity `func:f.py:a` with one
CALLS edge to `func:f.py:old`. -/
def c1Store : Store :=
  ⟨[⟨"func:f.py:a", "function", "f.py", "a", 1, 2, "def a()", "", none,
      0⟩],
   [⟨"func:f.py:a", "CALLS", "func:f.py:old", none⟩],
   []⟩

/-- New parse of the C1 counterexample: the same entity id, whose only
edge now targets `func:f.py:new` — the old edge is absent. -/
def c1Parse : ParseResult :=
  ⟨[⟨"func:f.py:a", "function", "f.py", "a", 1, 3, "def a()", "", none,
      0⟩],
   [⟨"func:f.py:a", "CALLS", "func:f.py:new", none⟩]⟩

/-! Concrete RRF inputs of claim C3. -/

/-- Lexical ranks `{a:0, b:1, c:2}` from the claim. -/
def c3Lex : List (String × Nat) := [("a", 0), ("b", 1), ("c", 2)]

/-- Semantic ranks `{b:0, c:1, d:2}` from the claim. -/
def c3Sem : List (String × Nat) := [("b", 0), ("c", 1), ("d", 2)]

end NSCCN

/-- Evaluating the RRF fusion of claim C3's inputs at `k = 60`:
descending by score the ids come out `b, c, a, d`, where `b` scores
`1/(60+1) + 1/(60+0)`, `c` scores `1/(60+2) + 1/(60+1)`, `a` scores
`1/(60+0) + 1/(60+1000)` and `d` scores `1/(60+1000) + 1/(60+2)`. -/
theorem NSCCN.rrfFuse_c3_eval :
    NSCCN.rrfFuse NSCCN.c3Lex NSCCN.c3Sem 60 =
      [("b", (1 : ℚ)/61 + 1/60), ("c", (1 : ℚ)/62 + 1/61),
       ("a", (1 : ℚ)/60 + 1/1060), ("d", (1 : ℚ)/1060 + 1/62)] := by
  have h1 : NSCCN.rrfFuse NSCCN.c3Lex NSCCN.c3Sem 60 =
      NSCCN.sortScoresDesc
        [("a", (1 : ℚ)/60 + 1/1060), ("b", (1 : ℚ)/61 + 1/60),
         ("c", (1 : ℚ)/62 + 1/61), ("d", (1 : ℚ)/1060 + 1/62)] := by
    simp [NSCCN.rrfFuse, NSCCN.c3Lex, NSCCN.c3Sem, NSCCN.dedupKeys,
      NSCCN.rankOf, List.lookup]
    norm_num
  rw [h1]
  norm_num [NSCCN.sortScoresDesc, NSCCN.insertDesc]

/-- C3 (counterexample): with lexical ranks `{a:0,b:1,c:2}` and semantic
ranks `{b:0,c:1,d:2}` at `k = 60`, the fused score of `b` is *not*
`1/61 + 1/61` and the fused score of `a` is *not* `1/61`, contrary to the
claim: `b` sits at lexical rank 1 and semantic rank 0, so its score is
`1/61 + 1/60`, and `a`, missing from the semantic list, receives the
default rank 1000 rather than being scored by one stream alone. -/
theorem C3_counterexample :
    (NSCCN.rrfFuse NSCCN.c3Lex NSCCN.c3Sem 60).lookup "b" ≠
        some ((1 : ℚ) / 61 + 1 / 61) ∧
    (NSCCN.rrfFuse NSCCN.c3Lex NSCCN.c3Sem 60).lookup "a" ≠
        some ((1 : ℚ) / 61) := by
  rw [NSCCN.rrfFuse_c3_eval]
  simp [List.lookup]
  norm_num

/-- C3 (amended): on the same inputs the fused *top* result is indeed `b`,
but with score `1/(60+1) + 1/(60+0) = 1/61 + 1/60 ≈ 0.0331`; and `a`
(present only lexically, at rank 0) scores `1/60 + 1/1060 ≈ 0.0176`,
because an id missing from one stream gets the default rank 1000. -/
theorem C3_amended :
    (NSCCN.rrfFuse NSCCN.c3Lex NSCCN.c3Sem 60).head? =
        some ("b", (1 : ℚ) / 61 + 1 / 60) ∧
    (NSCCN.rrfFuse NSCCN.c3Lex NSCCN.c3Sem 60).lookup "a" =
        some ((1 : ℚ) / 60 + 1 / 1060) := by
  rw [NSCCN.rrfFuse_c3_eval]
  simp [List.lookup]

/-! ## Traversal invariants (graph.py) -/

namespace NSCCN

/-- `adjPush` only edits values, never keys. -/
theorem adjPush_keys (adj : List (String × List (String × String)))
    (k : String) (x : String × String) :
    (adjPush adj k x).map Prod.fst = adj.map Prod.fst := by
  simp [adjPush, List.map_map, Function.comp_def]

/-- When the key is new, `adjInit` appends an empty entry. -/
theorem adjInit_of_not_mem (adj : List (String × List (String × String)))
    (k : String) (h : k ∉ adj.map Prod.fst) :
    adjInit adj k = adj ++ [(k, [])] := by
  have : adj.any (fun p => p.1 = k) = false := by
    rw [List.any_eq_false]
    intro p hp
    simp only [decide_eq_true_eq]
    intro hk
    exact h (List.mem_map.mpr ⟨p, hp, hk⟩)
  simp [adjInit, this]

/-- A preserved predicate survives a `foldl`. -/
theorem foldl_inv {α β : Type} {P : α → Prop} {f : α → β → α}
    (h : ∀ a b, P a → P (f a b)) :
    ∀ (l : List β) (a : α), P a → P (l.foldl f a)
  | [], _, ha => ha
  | b :: l, a, ha => foldl_inv h l (f a b) (h a b ha)

/-- The generic traversal keeps the adjacency keys equal to the visited
list (in visit order) and the visited list duplicate-free: each entity id
is visited at most once. -/
theorem travGo_keys (db : Store)
    (nbrs : Store → String → List (String × String)) :
    ∀ (fuel : Nat) (id : String) (acc : TravAcc),
      acc.adj.map Prod.fst = acc.visited → acc.visited.Nodup →
      (travGo db nbrs fuel id acc).adj.map Prod.fst =
          (travGo db nbrs fuel id acc).visited ∧
        (travGo db nbrs fuel id acc).visited.Nodup := by
  intro fuel
  induction fuel with
  | zero =>
    intro id acc h1 h2
    simpa [travGo] using ⟨h1, h2⟩
  | succ fuel ih =>
    intro id acc h1 h2
    by_cases hv : id ∈ acc.visited
    · simpa [travGo, hv] using ⟨h1, h2⟩
    · have hP : ∀ (l : List (String × String)) (a : TravAcc),
          (a.adj.map Prod.fst = a.visited ∧ a.visited.Nodup) →
          ((l.foldl
              (fun a n =>
                travGo db nbrs fuel n.1 { a with adj := adjPush a.adj id n })
              a).adj.map Prod.fst =
            (l.foldl
              (fun a n =>
                travGo db nbrs fuel n.1 { a with adj := adjPush a.adj id n })
              a).visited ∧
            (l.foldl
              (fun a n =>
                travGo db nbrs fuel n.1 { a with adj := adjPush a.adj id n })
              a).visited.Nodup) := by
        refine foldl_inv ?_
        intro a n ha
        refine ih n.1 { a with adj := adjPush a.adj id n } ?_ ha.2
        simpa [adjPush_keys] using ha.1
      have hid : id ∉ acc.adj.map Prod.fst := by rw [h1]; exact hv
      have hinit : adjInit acc.adj id = acc.adj ++ [(id, [])] :=
        adjInit_of_not_mem _ _ hid
      have hstartinv :
          ∀ es : List (String × EntInfo),
            (TravAcc.mk (acc.visited ++ [id])
                (adjInit acc.adj id) es).adj.map Prod.fst =
              (TravAcc.mk (acc.visited ++ [id])
                (adjInit acc.adj id) es).visited ∧
            (TravAcc.mk (acc.visited ++ [id])
              (adjInit acc.adj id) es).visited.Nodup := by
        intro es
        constructor
        · simp [hinit, h1]
        · simp [List.Nodup, List.pairwise_append]
          refine ⟨h2, ?_⟩
          intro x hx hxid
          exact hv (hxid ▸ hx)
      rcases hE : getEntity db id with _ | e
      · simpa [travGo, hv, hE] using
          hP (nbrs db id) ⟨acc.visited ++ [id], adjInit acc.adj id, acc.ents⟩
            (hstartinv acc.ents)
      · simpa [travGo, hv, hE] using
          hP (nbrs db id)
            ⟨acc.visited ++ [id], adjInit acc.adj id,
              acc.ents ++ [(id, entInfoOf e)]⟩
            (hstartinv (acc.ents ++ [(id, entInfoOf e)]))

end NSCCN

/-- C7: for every store (cyclic call graphs and self-referential edges
included) and every requested depth, both traversals terminate — they are
total Lean functions whose recursion is bounded by the same depth budget
the Python code carries — visit each entity id at most once (the visited
list, which equals the adjacency-list key set, has no duplicates), and
the effective traversal depth recorded in the result is the minimum of
the requested depth and the configured maximum (default 3). -/
theorem C7_traversal_bounded :
    ∀ (db : NSCCN.Store) (maxDepth root_depth : Nat) (root : String),
      ((NSCCN.traverseDownstream db maxDepth root root_depth).depth =
          min root_depth maxDepth ∧
        ((NSCCN.traverseDownstream db maxDepth root
            root_depth).adjacency_list.map Prod.fst).Nodup) ∧
      ((NSCCN.traverseUpstream db maxDepth root root_depth).depth =
          min root_depth maxDepth ∧
        ((NSCCN.traverseUpstream db maxDepth root
            root_depth).adjacency_list.map Prod.fst).Nodup) := by
  intro db maxDepth d root
  have hdown := NSCCN.travGo_keys db NSCCN.downNeighbors
    (min d maxDepth + 1) root ⟨[], [], []⟩ rfl List.nodup_nil
  have hup := NSCCN.travGo_keys db NSCCN.upNeighbors
    (min d maxDepth + 1) root ⟨[], [], []⟩ rfl List.nodup_nil
  constructor
  · exact ⟨rfl, by
      simpa [NSCCN.traverseDownstream, hdown.1] using hdown.2⟩
  · exact ⟨rfl, by
      simpa [NSCCN.traverseUpstream, hup.1] using hup.2⟩

namespace NSCCN

/-- Reachability is reflexive at every bound. -/
theorem reachW_refl (s : String → List String) :
    ∀ (n : Nat) (a : String), reachW s n a a
  | 0, _ => rfl
  | _ + 1, _ => Or.inl rfl

/-- Raising the bound preserves reachability. -/
theorem reachW_mono (s : String → List String) :
    ∀ (n : Nat) (a b : String), reachW s n a b → reachW s (n + 1) a b
  | 0, _, _, h => Or.inl h
  | n + 1, a, b, h => by
    rcases h with h | ⟨c, hc, h⟩
    · exact Or.inl h
    · exact Or.inr ⟨c, hc, reachW_mono s n c b h⟩

/-- Last-step decomposition of bounded reachability. -/
theorem reachW_snoc (s : String → List String) :
    ∀ (n : Nat) (a b : String),
      reachW s (n + 1) a b ↔
        reachW s n a b ∨ ∃ c, reachW s n a c ∧ b ∈ s c := by
  intro n
  induction n with
  | zero =>
    intro a b
    constructor
    · rintro (h | ⟨c, hc, rfl⟩)
      · exact Or.inl h
      · exact Or.inr ⟨a, rfl, hc⟩
    · rintro (h | ⟨c, rfl, hb⟩)
      · exact Or.inl h
      · exact Or.inr ⟨b, hb, rfl⟩
  | succ n ih =>
    intro a b
    constructor
    · rintro (h | ⟨c, hc, h⟩)
      · exact Or.inl (Or.inl h)
      · rcases (ih c b).mp h with h | ⟨d, hd, hb⟩
        · exact Or.inl (Or.inr ⟨c, hc, h⟩)
        · exact Or.inr ⟨d, Or.inr ⟨c, hc, hd⟩, hb⟩
    · rintro (h | ⟨c, hc, hb⟩)
      · rcases h with h | ⟨c, hc, h⟩
        · exact Or.inl h
        · exact Or.inr ⟨c, hc, (ih c b).mpr (Or.inl h)⟩
      · rcases hc with hc | ⟨d, hd, hdc⟩
        · subst hc
          exact Or.inr ⟨b, hb, reachW_refl s (n + 1) b⟩
        · exact Or.inr ⟨d, hd, (ih d b).mpr (Or.inr ⟨c, hdc, hb⟩)⟩

/-- One direction of reversal: a bounded forward path yields a bounded
backward path of the same length over the reversed step map. -/
theorem reachW_rev_imp (s t : String → List String)
    (hrev : ∀ x y, y ∈ s x → x ∈ t y) :
    ∀ (n : Nat) (a b : String), reachW s n a b → reachW t n b a := by
  intro n
  induction n with
  | zero => intro a b h; exact h.symm
  | succ n ih =>
    intro a b h
    rcases (reachW_snoc s n a b).mp h with h | ⟨c, hc, hb⟩
    · exact reachW_mono t n b a (ih a b h)
    · exact Or.inr ⟨c, hrev c b hb, ih a c hc⟩

/-- Edge-direction inverse of the CALLS step maps: `y` is a CALLS
successor of `x` exactly when `x` is a CALLS predecessor of `y`. -/
theorem downStep_upStep (db : Store) :
    ∀ x y, y ∈ downStep db x ↔ x ∈ upStep db y := by
  intro x y
  simp only [downStep, upStep, getEdgesBySource, getEdgesByTarget,
    List.mem_map, List.mem_filter, decide_eq_true_eq]
  constructor
  · rintro ⟨e, ⟨he, h1, h2⟩, h3⟩
    exact ⟨e, ⟨he, h3, h2⟩, h1⟩
  · rintro ⟨e, ⟨he, h1, h2⟩, h3⟩
    exact ⟨e, ⟨he, h3, h2⟩, h1⟩

/-- A preserved predicate survives a `foldl`, with membership of the
current element available. -/
theorem foldl_inv_mem {α β : Type} {P : α → Prop} {f : α → β → α} :
    ∀ (l : List β), (∀ a b, b ∈ l → P a → P (f a b)) →
      ∀ a, P a → P (l.foldl f a)
  | [], _, _, ha => ha
  | b :: l, h, a, ha =>
    foldl_inv_mem l (fun a' b' hb' => h a' b' (List.mem_cons_of_mem _ hb'))
      (f a b) (h a b (List.mem_cons_self _ _) ha)

/-- Soundness of the traversal: every id on the visited list of the
generic traversal is reachable from the root within the depth budget
along the step map induced by the neighbour function. -/
theorem travGo_reach (db : Store)
    (nbrs : Store → String → List (String × String))
    (s : String → List String)
    (hs : ∀ i, (nbrs db i).map Prod.fst = s i) :
    ∀ (fuel : Nat) (id : String) (acc : TravAcc) (x : String),
      x ∈ (travGo db nbrs fuel id acc).visited →
      x ∈ acc.visited ∨ reachW s (fuel - 1) id x := by
  intro fuel
  induction fuel with
  | zero =>
    intro id acc x hx
    exact Or.inl (by simpa [travGo] using hx)
  | succ fuel ih =>
    intro id acc x hx
    by_cases hv : id ∈ acc.visited
    · exact Or.inl (by simpa [travGo, hv] using hx)
    · have hQ : ∀ (a : TravAcc),
          (∀ y ∈ a.visited, y ∈ acc.visited ∨ reachW s fuel id y) →
          ∀ y ∈ ((nbrs db id).foldl
              (fun a n =>
                travGo db nbrs fuel n.1 { a with adj := adjPush a.adj id n })
              a).visited,
            y ∈ acc.visited ∨ reachW s fuel id y := by
        intro a ha
        refine foldl_inv_mem (P := fun a =>
          ∀ y ∈ a.visited, y ∈ acc.visited ∨ reachW s fuel id y)
          (nbrs db id) ?_ a ha
        intro a' n hn ha' y hy
        cases fuel with
        | zero =>
          exact ha' y (by simpa [travGo] using hy)
        | succ m =>
          rcases ih n.1 { a' with adj := adjPush a'.adj id n } y hy with
            hmem | hr
          · exact ha' y hmem
          · refine Or.inr (Or.inr ⟨n.1, ?_, by simpa using hr⟩)
            rw [← hs id]
            exact List.mem_map.mpr ⟨n, hn, rfl⟩
      have hstart : ∀ (es : List (String × EntInfo)) (y : String),
          y ∈ acc.visited ++ [id] →
          y ∈ acc.visited ∨ reachW s fuel id y := by
        intro es y hy
        rcases List.mem_append.mp hy with hy | hy
        · exact Or.inl hy
        · simp only [List.mem_singleton] at hy
          exact Or.inr (hy ▸ reachW_refl s fuel id)
      rcases hE : getEntity db id with _ | e
      · have := hQ ⟨acc.visited ++ [id], adjInit acc.adj id, acc.ents⟩
          (hstart acc.ents) x
        simp only [Nat.add_sub_cancel]
        refine this ?_
        simpa [travGo, hv, hE] using hx
      · have := hQ ⟨acc.visited ++ [id], adjInit acc.adj id,
            acc.ents ++ [(id, entInfoOf e)]⟩
          (hstart (acc.ents ++ [(id, entInfoOf e)])) x
        simp only [Nat.add_sub_cancel]
        refine this ?_
        simpa [travGo, hv, hE] using hx

end NSCCN

namespace NSCCN

/-- The recorded downstream neighbour ids are the CALLS successors. -/
theorem downNeighbors_fst (db : Store) :
    ∀ i, (downNeighbors db i).map Prod.fst = downStep db i := by
  intro i
  simp [downNeighbors, downStep, List.map_map, Function.comp_def]

/-- The recorded upstream neighbour ids are the CALLS predecessors. -/
theorem upNeighbors_fst (db : Store) :
    ∀ i, (upNeighbors db i).map Prod.fst = upStep db i := by
  intro i
  simp [upNeighbors, upStep, List.map_map, Function.comp_def]

end NSCCN

/-- C4 (counterexample): on the store with CALLS edges
`A→F, X2→F, B→A, X2→B, X1→X2, E→X1` (in that insertion order), `F`
appears in `traverse_downstream("E", 3)` (via `E→X1→X2→F`), but `E`
appears nowhere in `traverse_upstream("F", 3)` — not among the adjacency
keys, not among any adjacency entry's recorded targets, and not in the
entity snapshots — because the upstream DFS first reaches `X2` at depth 3
through `F→A→B→X2`, marks it visited, and the depth bound then cuts off
its caller `X1`, so the shorter route `F→X2→X1→E` is never explored.
This refutes the claim that downstream and upstream traversal results are
inverse for every store state. -/
theorem C4_counterexample :
    "F" ∈ (NSCCN.traverseDownstream NSCCN.c4Store 3 "E" 3).adjacency_list.map
        Prod.fst ∧
    "E" ∉ (NSCCN.traverseUpstream NSCCN.c4Store 3 "F" 3).adjacency_list.map
        Prod.fst ∧
    "E" ∉ (NSCCN.traverseUpstream NSCCN.c4Store 3 "F" 3).entities.map
        Prod.fst ∧
    (NSCCN.traverseUpstream NSCCN.c4Store 3 "F" 3).adjacency_list.all
        (fun p => !((p.2.map Prod.fst).contains "E")) = true := by
  decide

/-- C4 (amended): the two traversals are inverse at the level of bounded
CALLS reachability, not of traversal output: whenever `F` appears in
`traverse_downstream(E, d)`, there is a forward CALLS path from `E` to
`F` of length at most `min d max_depth` *and* the reversed path makes `E`
upstream-reachable from `F` within the same bound; symmetrically for an
id appearing in `traverse_upstream`.  (The traversal output itself may
still omit `E` from `traverse_upstream(F, d)`, as the counterexample
shows, because the visited-set check can cut short paths.) -/
theorem C4_amended :
    ∀ (db : NSCCN.Store) (maxd d : Nat) (E F : String),
      (F ∈ (NSCCN.traverseDownstream db maxd E d).adjacency_list.map
          Prod.fst →
        NSCCN.reachW (NSCCN.downStep db) (min d maxd) E F ∧
          NSCCN.reachW (NSCCN.upStep db) (min d maxd) F E) ∧
      (E ∈ (NSCCN.traverseUpstream db maxd F d).adjacency_list.map
          Prod.fst →
        NSCCN.reachW (NSCCN.upStep db) (min d maxd) F E ∧
          NSCCN.reachW (NSCCN.downStep db) (min d maxd) E F) := by
  intro db maxd d E F
  constructor
  · intro hF
    have hkeys := NSCCN.travGo_keys db NSCCN.downNeighbors
      (min d maxd + 1) E ⟨[], [], []⟩ rfl List.nodup_nil
    have hvis : F ∈ (NSCCN.travGo db NSCCN.downNeighbors
        (min d maxd + 1) E ⟨[], [], []⟩).visited := by
      rw [← hkeys.1]
      simpa [NSCCN.traverseDownstream] using hF
    have hreach := NSCCN.travGo_reach db NSCCN.downNeighbors
      (NSCCN.downStep db) (NSCCN.downNeighbors_fst db)
      (min d maxd + 1) E ⟨[], [], []⟩ F hvis
    rcases hreach with h | h
    · simp at h
    · have hdown : NSCCN.reachW (NSCCN.downStep db) (min d maxd) E F := by
        simpa using h
      refine ⟨hdown, ?_⟩
      exact NSCCN.reachW_rev_imp (NSCCN.downStep db) (NSCCN.upStep db)
        (fun x y hy => (NSCCN.downStep_upStep db x y).mp hy)
        (min d maxd) E F hdown
  · intro hE
    have hkeys := NSCCN.travGo_keys db NSCCN.upNeighbors
      (min d maxd + 1) F ⟨[], [], []⟩ rfl List.nodup_nil
    have hvis : E ∈ (NSCCN.travGo db NSCCN.upNeighbors
        (min d maxd + 1) F ⟨[], [], []⟩).visited := by
      rw [← hkeys.1]
      simpa [NSCCN.traverseUpstream] using hE
    have hreach := NSCCN.travGo_reach db NSCCN.upNeighbors
      (NSCCN.upStep db) (NSCCN.upNeighbors_fst db)
      (min d maxd + 1) F ⟨[], [], []⟩ E hvis
    rcases hreach with h | h
    · simp at h
    · have hup : NSCCN.reachW (NSCCN.upStep db) (min d maxd) F E := by
        simpa using h
      refine ⟨hup, ?_⟩
      exact NSCCN.reachW_rev_imp (NSCCN.upStep db) (NSCCN.downStep db)
        (fun x y hy => (NSCCN.downStep_upStep db y x).mpr hy)
        (min d maxd) F E hup

/-- Witness for C4 (amended) at a concrete input: on the counterexample
store, `F ∈ traverse_downstream("E", 3)` holds, and the theorem yields
the two bounded-reachability facts. -/
theorem C4_amended_witness :
    "F" ∈ (NSCCN.traverseDownstream NSCCN.c4Store 3 "E" 3).adjacency_list.map
        Prod.fst ∧
      (NSCCN.reachW (NSCCN.downStep NSCCN.c4Store) (min 3 3) "E" "F" ∧
        NSCCN.reachW (NSCCN.upStep NSCCN.c4Store) (min 3 3) "F" "E") :=
  ⟨by decide, (C4_amended NSCCN.c4Store 3 3 "E" "F").1 (by decide)⟩

namespace NSCCN

/-- The traversal records an `entities_info` snapshot exactly for the
visited ids that have an Entity row: every snapshot key has a row, and
every visited id with a row gets a snapshot. -/
theorem travGo_ents (db : Store)
    (nbrs : Store → String → List (String × String)) :
    ∀ (fuel : Nat) (id : String) (acc : TravAcc),
      (∀ k ∈ acc.ents.map Prod.fst, (getEntity db k).isSome) →
      (∀ k ∈ acc.visited, (getEntity db k).isSome →
        k ∈ acc.ents.map Prod.fst) →
      ((∀ k ∈ (travGo db nbrs fuel id acc).ents.map Prod.fst,
          (getEntity db k).isSome) ∧
        (∀ k ∈ (travGo db nbrs fuel id acc).visited,
          (getEntity db k).isSome →
          k ∈ (travGo db nbrs fuel id acc).ents.map Prod.fst)) := by
  intro fuel
  induction fuel with
  | zero =>
    intro id acc h1 h2
    constructor
    · intro k hk; exact h1 k (by simpa [travGo] using hk)
    · intro k hk hs
      simpa [travGo] using h2 k (by simpa [travGo] using hk) hs
  | succ fuel ih =>
    intro id acc h1 h2
    by_cases hv : id ∈ acc.visited
    · constructor
      · intro k hk; exact h1 k (by simpa [travGo, hv] using hk)
      · intro k hk hs
        simpa [travGo, hv] using h2 k (by simpa [travGo, hv] using hk) hs
    · have hP : ∀ (l : List (String × String)) (a : TravAcc),
          ((∀ k ∈ a.ents.map Prod.fst, (getEntity db k).isSome) ∧
            (∀ k ∈ a.visited, (getEntity db k).isSome →
              k ∈ a.ents.map Prod.fst)) →
          ((∀ k ∈ (l.foldl
              (fun a n =>
                travGo db nbrs fuel n.1 { a with adj := adjPush a.adj id n })
              a).ents.map Prod.fst, (getEntity db k).isSome) ∧
            (∀ k ∈ (l.foldl
              (fun a n =>
                travGo db nbrs fuel n.1 { a with adj := adjPush a.adj id n })
              a).visited, (getEntity db k).isSome →
              k ∈ (l.foldl
                (fun a n =>
                  travGo db nbrs fuel n.1
                    { a with adj := adjPush a.adj id n })
                a).ents.map Prod.fst)) := by
        refine foldl_inv ?_
        intro a n ha
        exact ih n.1 { a with adj := adjPush a.adj id n } ha.1 ha.2
      rcases hE : getEntity db id with _ | e
      · have hstart :
            (∀ k ∈ acc.ents.map Prod.fst, (getEntity db k).isSome) ∧
            (∀ k ∈ acc.visited ++ [id], (getEntity db k).isSome →
              k ∈ acc.ents.map Prod.fst) := by
          refine ⟨h1, ?_⟩
          intro k hk hs
          rcases List.mem_append.mp hk with hk | hk
          · exact h2 k hk hs
          · simp only [List.mem_singleton] at hk
            subst hk
            rw [hE] at hs
            simp at hs
        have := hP (nbrs db id)
          ⟨acc.visited ++ [id], adjInit acc.adj id, acc.ents⟩ hstart
        constructor
        · intro k hk
          exact this.1 k (by simpa [travGo, hv, hE] using hk)
        · intro k hk hs
          have hres := this.2 k (by simpa [travGo, hv, hE] using hk) hs
          simpa [travGo, hv, hE] using hres
      · have hstart :
            (∀ k ∈ (acc.ents ++ [(id, entInfoOf e)]).map Prod.fst,
              (getEntity db k).isSome) ∧
            (∀ k ∈ acc.visited ++ [id], (getEntity db k).isSome →
              k ∈ (acc.ents ++ [(id, entInfoOf e)]).map Prod.fst) := by
          constructor
          · intro k hk
            rw [List.map_append, List.mem_append] at hk
            rcases hk with hk | hk
            · exact h1 k hk
            · simp only [List.map_cons, List.map_nil,
                List.mem_singleton] at hk
              subst hk
              rw [hE]
              rfl
          · intro k hk hs
            rcases List.mem_append.mp hk with hk | hk
            · have := h2 k hk hs
              simp only [List.map_append, List.mem_append]
              exact Or.inl this
            · simp only [List.mem_singleton] at hk
              subst hk
              simp
        have := hP (nbrs db id)
          ⟨acc.visited ++ [id], adjInit acc.adj id,
            acc.ents ++ [(id, entInfoOf e)]⟩ hstart
        constructor
        · intro k hk
          exact this.1 k (by simpa [travGo, hv, hE] using hk)
        · intro k hk hs
          have hres := this.2 k (by simpa [travGo, hv, hE] using hk) hs
          simpa [travGo, hv, hE] using hres

end NSCCN

/-- C5 (counterexample): on a store whose single entity `func:f.py:a` has
one CALLS edge to the wildcard pseudo-entity `method:f.py:*.foo` (which
has no Entity row), `traverse_downstream("func:f.py:a", 1)` visits the
pseudo-entity and records it in `adjacency_list`, but the `entities` map
carries no snapshot for it — `entities_info` is only populated when
`get_entity` returns a row.  This refutes the claim that `entities`
contains a snapshot for *every* id recorded in `adjacency_list`,
including ids with no Entity row. -/
theorem C5_counterexample :
    "method:f.py:*.foo" ∈
        (NSCCN.traverseDownstream NSCCN.c5Store 3 "func:f.py:a"
          1).adjacency_list.map Prod.fst ∧
    "method:f.py:*.foo" ∉
        (NSCCN.traverseDownstream NSCCN.c5Store 3 "func:f.py:a"
          1).entities.map Prod.fst := by
  decide

/-- C5 (amended): for every store, root and depth, the `entities` map of
`traverse_downstream` (and symmetrically `traverse_upstream`) carries a
snapshot exactly for the visited ids that have an Entity row: every
snapshot key has a row in the store, and every id recorded in
`adjacency_list` that has a row gets a snapshot.  Visited ids without a
row — wildcard method targets and other pseudo-entities — appear in
`adjacency_list` but not in `entities`. -/
theorem C5_amended :
    ∀ (db : NSCCN.Store) (maxd d : Nat) (root x : String),
      ((x ∈ (NSCCN.traverseDownstream db maxd root d).entities.map
            Prod.fst →
          (NSCCN.getEntity db x).isSome) ∧
        (x ∈ (NSCCN.traverseDownstream db maxd root d).adjacency_list.map
            Prod.fst →
          (NSCCN.getEntity db x).isSome →
          x ∈ (NSCCN.traverseDownstream db maxd root d).entities.map
            Prod.fst)) ∧
      ((x ∈ (NSCCN.traverseUpstream db maxd root d).entities.map
            Prod.fst →
          (NSCCN.getEntity db x).isSome) ∧
        (x ∈ (NSCCN.traverseUpstream db maxd root d).adjacency_list.map
            Prod.fst →
          (NSCCN.getEntity db x).isSome →
          x ∈ (NSCCN.traverseUpstream db maxd root d).entities.map
            Prod.fst)) := by
  intro db maxd d root x
  have hde := NSCCN.travGo_ents db NSCCN.downNeighbors
    (min d maxd + 1) root ⟨[], [], []⟩ (by simp) (by simp)
  have hdk := NSCCN.travGo_keys db NSCCN.downNeighbors
    (min d maxd + 1) root ⟨[], [], []⟩ rfl List.nodup_nil
  have hue := NSCCN.travGo_ents db NSCCN.upNeighbors
    (min d maxd + 1) root ⟨[], [], []⟩ (by simp) (by simp)
  have huk := NSCCN.travGo_keys db NSCCN.upNeighbors
    (min d maxd + 1) root ⟨[], [], []⟩ rfl List.nodup_nil
  constructor
  · constructor
    · intro hx
      exact hde.1 x (by simpa [NSCCN.traverseDownstream] using hx)
    · intro hx hs
      have hvis : x ∈ (NSCCN.travGo db NSCCN.downNeighbors
          (min d maxd + 1) root ⟨[], [], []⟩).visited := by
        rw [← hdk.1]
        simpa [NSCCN.traverseDownstream] using hx
      simpa [NSCCN.traverseDownstream] using hde.2 x hvis hs
  · constructor
    · intro hx
      exact hue.1 x (by simpa [NSCCN.traverseUpstream] using hx)
    · intro hx hs
      have hvis : x ∈ (NSCCN.travGo db NSCCN.upNeighbors
          (min d maxd + 1) root ⟨[], [], []⟩).visited := by
        rw [← huk.1]
        simpa [NSCCN.traverseUpstream] using hx
      simpa [NSCCN.traverseUpstream] using hue.2 x hvis hs

/-- Witness for C5 (amended): on the C5 store the root id has an Entity
row and is recorded in the adjacency list, so the theorem places it in
the `entities` map. -/
theorem C5_amended_witness :
    "func:f.py:a" ∈
        (NSCCN.traverseDownstream NSCCN.c5Store 3 "func:f.py:a"
          1).adjacency_list.map Prod.fst ∧
      (NSCCN.getEntity NSCCN.c5Store "func:f.py:a").isSome ∧
      "func:f.py:a" ∈
        (NSCCN.traverseDownstream NSCCN.c5Store 3 "func:f.py:a"
          1).entities.map Prod.fst :=
  ⟨by decide, by decide,
    (C5_amended NSCCN.c5Store 3 1 "func:f.py:a" "func:f.py:a").1.2
      (by decide) (by decide)⟩

namespace NSCCN

/-- Early-exit behaviour of the DFS fold in `trace_path`: a `some` result
either was already present or was produced by one of the recursive calls. -/
theorem tracePath_foldl_earlyexit
    {g : Edge → List String → Option (List String) × List String} :
    ∀ (l : List Edge) (r : Option (List String) × List String)
      (p : List String),
      (l.foldl (fun r e =>
        match r with
        | (some q, vis) => (some q, vis)
        | (none, vis) => g e vis) r).1 = some p →
      r.1 = some p ∨ ∃ e ∈ l, ∃ vis, (g e vis).1 = some p := by
  intro l
  induction l with
  | nil =>
    intro r p h
    exact Or.inl h
  | cons e l ih =>
    intro r p h
    rcases r with ⟨ro, rv⟩
    rcases ro with _ | q
    · rcases ih (g e rv) p h with h' | ⟨e', he', vis, hg⟩
      · exact Or.inr ⟨e, List.mem_cons_self _ _, rv, h'⟩
      · exact Or.inr ⟨e', List.mem_cons_of_mem _ he', vis, hg⟩
    · rcases ih (some q, rv) p h with h' | ⟨e', he', vis, hg⟩
      · exact Or.inl h'
      · exact Or.inr ⟨e', List.mem_cons_of_mem _ he', vis, hg⟩

/-- Soundness of the `trace_path` DFS: a returned path extends the
accumulated prefix by a non-empty suffix that starts at the current id,
ends at the target, and has length at most the remaining depth budget. -/
theorem tracePathGo_sound (db : Store) (target : String) :
    ∀ (fuel : Nat) (current : String) (path visited : List String)
      (p : List String),
      (tracePathGo db target fuel current path visited).1 = some p →
      ∃ q, p = path ++ q ∧ q ≠ [] ∧ q.head? = some current ∧
        p.getLast? = some target ∧ q.length ≤ fuel := by
  intro fuel
  induction fuel with
  | zero =>
    intro current path visited p h
    simp [tracePathGo] at h
  | succ fuel ih =>
    intro current path visited p h
    by_cases hct : current = target
    · simp only [tracePathGo, if_pos hct] at h
      have hp : p = path ++ [current] := by
        simpa using h.symm
      refine ⟨[current], hp, by simp, rfl, ?_, by simp⟩
      rw [hp, hct]
      simp
    · by_cases hcv : current ∈ visited
      · simp [tracePathGo, hct, hcv] at h
      · simp only [tracePathGo, if_neg hct, if_neg hcv] at h
        rcases tracePath_foldl_earlyexit _ _ p h with h' | ⟨e, he, vis, hg⟩
        · simp at h'
        · rcases ih e.tgt (path ++ [current]) vis p hg with
            ⟨q', hq', hne, hhd, hlast, hlen⟩
          refine ⟨current :: q', by simpa [List.append_assoc] using hq',
            by simp, rfl, hlast, ?_⟩
          simpa [Nat.succ_le_succ_iff] using hlen

end NSCCN

/-- C10: `trace_path(s, s)` returns the single-element path `[s]` for
every store state and every configured depth bound — even when `s` has no
Entity row and no outgoing edges — because within the initial depth
budget the target test fires before the visited test and before any edge
expansion; and, in general, every path returned by `trace_path` starts at
the source id, ends at the target id, and contains at most
`max_depth + 1` ids (the engine's default `max_depth` is 3). -/
theorem C10_trace_path :
    ∀ (db : NSCCN.Store) (s t : String) (maxd : Nat) (p : List String),
      NSCCN.tracePath db s s maxd = some [s] ∧
      (NSCCN.tracePath db s t maxd = some p →
        p.head? = some s ∧ p.getLast? = some t ∧ p.length ≤ maxd + 1) := by
  intro db s t maxd p
  constructor
  · simp [NSCCN.tracePath, NSCCN.tracePathGo]
  · intro h
    rcases NSCCN.tracePathGo_sound db t (maxd + 1) s [] [] p h with
      ⟨q, hq, hne, hhd, hlast, hlen⟩
    simp only [List.nil_append] at hq
    subst hq
    exact ⟨hhd, hlast, hlen⟩

/-- Witness for C10 at a concrete input: the empty store, `s = t = "a"`,
default depth 3. -/
theorem C10_trace_path_witness :
    NSCCN.tracePath ⟨[], [], []⟩ "a" "a" 3 = some ["a"] ∧
      (["a"] : List String).head? = some "a" ∧
      (["a"] : List String).getLast? = some "a" ∧
      (["a"] : List String).length ≤ 4 :=
  ⟨(C10_trace_path ⟨[], [], []⟩ "a" "a" 3 ["a"]).1,
    (C10_trace_path ⟨[], [], []⟩ "a" "a" 3 ["a"]).2 (by decide)⟩

/-! ## Relation inventory of the edge extraction (for claim C2) -/

namespace NSCCN

/-- `add_mutates` emits only MUTATES edges. -/
theorem addMutates_rel (st : List StackEntry) (t : String) (l : Nat)
    (m : String) (e : Edge) (he : e ∈ addMutates st t l m) :
    e.rel = "MUTATES" := by
  cases st with
  | nil => simp [addMutates] at he
  | cons a s =>
    simp [addMutates] at he
    subst he
    rfl

/-- `add_reads_config` emits only READS_CONFIG edges. -/
theorem addReadsConfig_rel (st : List StackEntry) (t : String) (l : Nat)
    (m : String) (e : Edge) (he : e ∈ addReadsConfig st t l m) :
    e.rel = "READS_CONFIG" := by
  cases st with
  | nil => simp [addReadsConfig] at he
  | cons a s =>
    simp [addReadsConfig] at he
    subst he
    rfl

/-- The env-var argument scan emits only READS_CONFIG edges. -/
theorem envArgEdges_rel (st : List StackEntry) (args : TSNode) (l : Nat)
    (m : String) (e : Edge) (he : e ∈ envArgEdges st args l m) :
    e.rel = "READS_CONFIG" := by
  simp only [envArgEdges, List.mem_flatten, List.mem_map] at he
  obtain ⟨l', ⟨c, hc, rfl⟩, hel⟩ := he
  cases hfc : firstStringContent c with
  | none => rw [hfc] at hel; simp at hel
  | some ev => rw [hfc] at hel; exact addReadsConfig_rel _ _ _ _ _ hel

/-- The MUTATES call block emits only MUTATES edges. -/
theorem callMutatesEdges_rel (fp : String) (st : List StackEntry)
    (fn : TSNode) (m : String) (e : Edge)
    (he : e ∈ callMutatesEdges fp st fn m) : e.rel = "MUTATES" := by
  unfold callMutatesEdges at he
  repeat' split at he
  all_goals
    first
      | exact addMutates_rel _ _ _ _ _ he
      | simp at he

/-- The READS_CONFIG call block emits only READS_CONFIG edges. -/
theorem callReadsEdges_rel (st : List StackEntry) (n fn : TSNode)
    (m : String) (e : Edge) (he : e ∈ callReadsEdges st n fn m) :
    e.rel = "READS_CONFIG" := by
  unfold callReadsEdges at he
  repeat' split at he
  all_goals
    first
      | exact envArgEdges_rel _ _ _ _ _ he
      | simp at he

/-- Relation inventory of the `call`-node emissions. -/
theorem callEdges_rel (fp : String) (st : List StackEntry) (n : TSNode)
    (e : Edge) (he : e ∈ callEdges fp st n) :
    e.rel = "CALLS" ∨ e.rel = "MUTATES" ∨ e.rel = "READS_CONFIG" := by
  unfold callEdges at he
  repeat' split at he
  all_goals try simp at he
  · exact Or.inl (he ▸ rfl)
  · rcases he with he | he | he
    · exact Or.inl (he ▸ rfl)
    · exact Or.inr (Or.inl (callMutatesEdges_rel _ _ _ _ _ he))
    · exact Or.inr (Or.inr (callReadsEdges_rel _ _ _ _ _ he))

end NSCCN

namespace NSCCN

/-- Assignment emissions are MUTATES edges. -/
theorem assignEdges_rel (fp : String) (st : List StackEntry) (n : TSNode)
    (e : Edge) (he : e ∈ assignEdges fp st n) : e.rel = "MUTATES" := by
  unfold assignEdges at he
  repeat' split at he
  all_goals
    first
      | exact addMutates_rel _ _ _ _ _ he
      | simp at he

/-- Subscript emissions are READS_CONFIG edges. -/
theorem subscriptEdges_rel (fp : String) (st : List StackEntry)
    (n : TSNode) (e : Edge) (he : e ∈ subscriptEdges fp st n) :
    e.rel = "READS_CONFIG" := by
  unfold subscriptEdges at he
  repeat' split at he
  all_goals
    first
      | exact envArgEdges_rel _ _ _ _ _ he
      | simp at he

/-- Identifier (constant reference) emissions are READS_CONFIG edges. -/
theorem identifierEdges_rel (pty : Option String) (st : List StackEntry)
    (n : TSNode) (e : Edge) (he : e ∈ identifierEdges pty st n) :
    e.rel = "READS_CONFIG" := by
  unfold identifierEdges at he
  repeat' split at he
  all_goals try simp at he
  all_goals
    first
      | exact addReadsConfig_rel _ _ _ _ _ he
      | exact addReadsConfig_rel _ _ _ _ _ he.2

/-- Base-class emissions are INHERITS edges. -/
theorem inheritsEdges_rel (fp eid : String) (sup : TSNode) (e : Edge)
    (he : e ∈ inheritsEdges fp eid sup) : e.rel = "INHERITS" := by
  simp only [inheritsEdges, List.mem_map] at he
  obtain ⟨c, _, rfl⟩ := he
  rfl

mutual

/-- Every edge the `_extract_edges` walker emits has one of the four
relations CALLS, INHERITS, MUTATES, READS_CONFIG. -/
theorem walkNode_rel (fp : String) (pty : Option String)
    (stack : List StackEntry) (n : TSNode) (e : Edge)
    (he : e ∈ walkNode fp pty stack n) :
    e.rel = "CALLS" ∨ e.rel = "INHERITS" ∨ e.rel = "MUTATES" ∨
      e.rel = "READS_CONFIG" := by
  cases n with
  | mk nty tx r cs =>
    unfold walkNode at he
    repeat' split at he
    all_goals
      first
        | exact walkChildren_rel fp _ _ _ e he
        | (rcases List.mem_append.mp he with he' | he'
           · exact Or.inr (Or.inl (inheritsEdges_rel _ _ _ _ he'))
           · exact walkChildren_rel fp _ _ _ e he')
        | (rcases List.mem_append.mp he with he' | he'
           · rcases callEdges_rel _ _ _ _ he' with h | h | h
             · exact Or.inl h
             · exact Or.inr (Or.inr (Or.inl h))
             · exact Or.inr (Or.inr (Or.inr h))
           · exact walkChildren_rel fp _ _ _ e he')
        | (rcases List.mem_append.mp he with he' | he'
           · exact Or.inr (Or.inr (Or.inl (assignEdges_rel _ _ _ _ he')))
           · exact walkChildren_rel fp _ _ _ e he')
        | (rcases List.mem_append.mp he with he' | he'
           · rcases List.mem_append.mp he' with he'' | he''
             · exact Or.inr (Or.inr (Or.inr
                 (subscriptEdges_rel _ _ _ _ he'')))
             · exact Or.inr (Or.inr (Or.inr
                 (identifierEdges_rel _ _ _ _ he'')))
           · exact walkChildren_rel fp _ _ _ e he')

/-- Child-list version of `walkNode_rel`. -/
theorem walkChildren_rel (fp : String) (pty : Option String)
    (stack : List StackEntry) (cs : TSChildren) (e : Edge)
    (he : e ∈ walkChildren fp pty stack cs) :
    e.rel = "CALLS" ∨ e.rel = "INHERITS" ∨ e.rel = "MUTATES" ∨
      e.rel = "READS_CONFIG" := by
  cases cs with
  | nil => simp [walkChildren] at he
  | cons f c rest =>
    unfold walkChildren at he
    rcases List.mem_append.mp he with he' | he'
    · exact walkNode_rel fp pty stack c e he'
    · exact walkChildren_rel fp pty stack rest e he'

end

end NSCCN

/-- C2: `CodeParser._extract_edges` contains no handling of
`raise_statement` nodes at all — its docstring even announces only
"CALLS, INHERITS, and MUTATES" — so no input tree, in particular not the
phase-3 test input `def validate(data): raise ValidationError("Empty
data")`, ever produces a PROPAGATES_ERROR edge: every emitted edge's
relation is one of CALLS, INHERITS, MUTATES, READS_CONFIG.  The
repository's own test suite (`test_nsccn_phase3_propagates_error.py`)
asserts these edges and documents that it currently fails. -/
theorem C2_no_propagates_error :
    (∀ (fp : String) (t : NSCCN.TSNode) (e : NSCCN.Edge),
        e ∈ NSCCN.extractEdges fp t → e.rel ≠ "PROPAGATES_ERROR") ∧
      (NSCCN.extractEdges "test.py" NSCCN.c2Tree).filter
          (fun e => e.rel = "PROPAGATES_ERROR") = [] := by
  constructor
  · intro fp t e he
    rcases NSCCN.walkNode_rel fp none [] t e he with h | h | h | h <;>
      (rw [h]; decide)
  · decide

/-- Witness for C2: the phase-3 input does produce an edge (the CALLS
edge for the `ValidationError(...)` call expression), and its relation is
not PROPAGATES_ERROR. -/
theorem C2_no_propagates_error_witness :
    (⟨"func:test.py:validate", "CALLS", "func:test.py:ValidationError",
        none⟩ : NSCCN.Edge) ∈
      NSCCN.extractEdges "test.py" NSCCN.c2Tree ∧
    (⟨"func:test.py:validate", "CALLS", "func:test.py:ValidationError",
        none⟩ : NSCCN.Edge).rel ≠ "PROPAGATES_ERROR" :=
  ⟨by decide,
    C2_no_propagates_error.1 "test.py" NSCCN.c2Tree _ (by decide)⟩

/-- C8: skeleton generation is a pure projection.  For a module whose
single top-level statement is a function definition with a name, a
parameter list, no return annotation and a non-empty docstring, the
generated line list is exactly the file header, a blank line, the
function's header, its docstring, one elision marker `    ...` and a
trailing blank — independent of the function body.  Hence the output
contains the header and the docstring, contains exactly one elision
marker, and contains no further line at all, in particular no body
statement's literal text (the inequality hypotheses rule out a body
statement textually identical to one of the six emitted lines, which no
real body statement is). -/
theorem C8_generate_skeleton
    (fp mtx : String) (mrow : Nat) (fn nm ps : NSCCN.TSNode) (d : String)
    (h1 : fn.ty = "function_definition")
    (h2 : fn.childByField "name" = some nm)
    (h3 : fn.childByField "parameters" = some ps)
    (h4 : fn.childByField "return_type" = none)
    (h5 : NSCCN.extractDocstring fn = d)
    (h6 : d ≠ "")
    (hx1 : ("# " ++ fp) ≠ "    ...")
    (hx2 : ("def " ++ nm.text ++ ps.text ++ ":") ≠ "    ...") :
    NSCCN.skelLines fp (NSCCN.tsNode "module" mtx mrow [(none, fn)]) =
      ["# " ++ fp, "", "def " ++ nm.text ++ ps.text ++ ":",
       "    \"\"\"" ++ d ++ "\"\"\"", "    ...", ""] ∧
    ("def " ++ nm.text ++ ps.text ++ ":") ∈
      NSCCN.skelLines fp (NSCCN.tsNode "module" mtx mrow [(none, fn)]) ∧
    ("    \"\"\"" ++ d ++ "\"\"\"") ∈
      NSCCN.skelLines fp (NSCCN.tsNode "module" mtx mrow [(none, fn)]) ∧
    (NSCCN.skelLines fp
        (NSCCN.tsNode "module" mtx mrow [(none, fn)])).count "    ..." =
      1 ∧
    (∀ s : String,
      s ∉ ["# " ++ fp, "", "def " ++ nm.text ++ ps.text ++ ":",
        "    \"\"\"" ++ d ++ "\"\"\"", "    ...", ""] →
      s ∉ NSCCN.skelLines fp
        (NSCCN.tsNode "module" mtx mrow [(none, fn)])) := by
  have hdq : ("    \"\"\"" ++ d ++ "\"\"\"") ≠ "    ..." := by
    intro h
    have : ("    \"\"\"" ++ d ++ "\"\"\"").toList = "    ...".toList := by
      rw [h]
    simp at this
  have hmain : NSCCN.skelLines fp
      (NSCCN.tsNode "module" mtx mrow [(none, fn)]) =
      ["# " ++ fp, "", "def " ++ nm.text ++ ps.text ++ ":",
       "    \"\"\"" ++ d ++ "\"\"\"", "    ...", ""] := by
    rw [NSCCN.skelLines, NSCCN.skelNode]
    simp [NSCCN.tsNode, NSCCN.TSChildren.ofList, NSCCN.TSNode.ty,
      NSCCN.TSNode.childrenC, NSCCN.skelChildren.eq_def]
    rw [NSCCN.skelNode]
    simp [h1, h2, h3, h4, h5, h6, NSCCN.pyIndent]
    rw [show String.join [] = "" from rfl]
    simp [String.empty_append]
  refine ⟨hmain, ?_, ?_, ?_, ?_⟩
  · rw [hmain]; simp
  · rw [hmain]; simp
  · rw [hmain]
    simp [List.count_cons, hx1, hx2, hdq]
  · intro s hs
    rw [hmain]
    exact hs

/-- Witness for C8 at a concrete input: a module holding
`def greet(name):` with docstring `Say hello.`, body `x = 1` /
`return x`; the skeleton is exactly the six-line projection and contains
exactly one elision marker. -/
theorem C8_generate_skeleton_witness :
    NSCCN.skelLines "m.py"
        (NSCCN.tsNode "module" "" 0 [(none, NSCCN.c8Fn)]) =
      ["# " ++ "m.py", "",
       "def " ++ "greet" ++ "(name)" ++ ":",
       "    \"\"\"" ++ "Say hello." ++ "\"\"\"", "    ...", ""] ∧
    (NSCCN.skelLines "m.py"
        (NSCCN.tsNode "module" "" 0 [(none, NSCCN.c8Fn)])).count
      "    ..." = 1 :=
  have h := C8_generate_skeleton "m.py" "" 0 NSCCN.c8Fn
    (NSCCN.tsNode "identifier" "greet" 1 [])
    (NSCCN.tsNode "parameters" "(name)" 1 []) "Say hello."
    rfl rfl rfl rfl rfl (by decide) (by decide) (by decide)
  ⟨h.1, h.2.2.2.1⟩

namespace NSCCN

/-- Insertion keeps exactly the members. -/
theorem mem_insertDesc (a x : String × ℚ) :
    ∀ l, a ∈ insertDesc x l ↔ a = x ∨ a ∈ l := by
  intro l
  induction l with
  | nil => simp [insertDesc]
  | cons y ys ih =>
    by_cases h : x.2 > y.2
    · simp [insertDesc, h]
    · simp only [insertDesc, if_neg h, List.mem_cons, ih]
      tauto

/-- The stable descending sort keeps exactly the members. -/
theorem mem_sortScoresDesc (a : String × ℚ) :
    ∀ l, a ∈ sortScoresDesc l ↔ a ∈ l := by
  intro l
  induction l with
  | nil => simp [sortScoresDesc]
  | cons y ys ih =>
    simp [sortScoresDesc, mem_insertDesc, ih]

/-- A fetched row carries the requested id. -/
theorem getEntity_id {db : Store} {x : String} {e : Entity}
    (h : getEntity db x = some e) : e.id = x := by
  have := List.find?_some h
  simpa using this

end NSCCN

/-- C6: when the embedding provider fails on a text, `embed_text`
returns a zero vector of the configured dimension instead of raising,
and any stored entity with no embedding or a zero-norm embedding is
excluded from `search_entities_by_embedding` for every query vector and
limit (under the `id` PRIMARY KEY invariant of the entities table). -/
theorem C6_zero_vector_excluded :
    (∀ (provider : String → Except String (List ℚ)) (dim : Nat)
        (text msg : String),
      provider text = .error msg →
      NSCCN.embedText provider dim text = List.replicate dim 0 ∧
        (NSCCN.embedText provider dim text).length = dim) ∧
    (∀ (db : NSCCN.Store) (query : List ℚ) (limit : Nat)
        (ent : NSCCN.Entity),
      (db.entities.map (fun e => e.id)).Nodup →
      ent ∈ db.entities →
      (ent.embedding = none ∨
        ∃ emb, ent.embedding = some emb ∧ NSCCN.sumSq emb = 0) →
      ent.id ∉ (NSCCN.searchEntitiesByEmbedding db query limit).map
        (fun r => r.1.id)) := by
  constructor
  · intro provider dim text msg hfail
    constructor
    · simp [NSCCN.embedText, hfail]
    · simp [NSCCN.embedText, hfail]
  · intro db query limit ent hnodup hmem hzero hin
    simp only [NSCCN.searchEntitiesByEmbedding, List.mem_map] at hin
    obtain ⟨r', hr', hid⟩ := hin
    rw [List.mem_filterMap] at hr'
    obtain ⟨r, hr, hres⟩ := hr'
    rcases hge : NSCCN.getEntity db r.1 with _ | entR
    · rw [hge] at hres; simp at hres
    · rw [hge] at hres
      simp only [Option.some_inj] at hres
      have hrid : r.1 = ent.id := by
        have := NSCCN.getEntity_id hge
        rw [← hres] at hid
        simp at hid
        rw [← hid, this]
      have hr2 : r ∈ NSCCN.sortScoresDesc
          (db.entities.filterMap (fun ent =>
            match ent.embedding with
            | none => none
            | some emb =>
              if NSCCN.sumSq emb > 0 ∧ NSCCN.sumSq query > 0 then
                some (ent.id,
                  NSCCN.dotQ query emb /
                    (NSCCN.sumSq query * NSCCN.sumSq emb))
              else none)) := List.take_subset _ _ hr
      rw [NSCCN.mem_sortScoresDesc] at hr2
      rw [List.mem_filterMap] at hr2
      obtain ⟨ent', hmem', hf⟩ := hr2
      rcases hemb : ent'.embedding with _ | emb'
      · rw [hemb] at hf; simp at hf
      · simp only [hemb] at hf
        by_cases hc : NSCCN.sumSq emb' > 0 ∧ NSCCN.sumSq query > 0
        · rw [if_pos hc] at hf
          have hf' := Option.some.inj hf
          have hid' : ent'.id = ent.id := by
            have := congrArg Prod.fst hf'
            simpa [hrid] using this
          have : ent' = ent :=
            List.inj_on_of_nodup_map hnodup hmem' hmem hid'
          subst this
          rcases hzero with hnone | ⟨emb, hsome, h0⟩
          · rw [hemb] at hnone; exact Option.noConfusion hnone
          · rw [hemb] at hsome
            have hee : emb = emb' := by simpa using hsome.symm
            subst hee
            exact absurd h0 (ne_of_gt hc.1)
        · rw [if_neg hc] at hf
          exact Option.noConfusion hf

/-- Witness for C6 at concrete inputs: a provider that always fails
yields the zero 3-vector, and the zero-norm entity `func:f.py:z` is
absent from the semantic search results on query `[1]`. -/
theorem C6_zero_vector_excluded_witness :
    NSCCN.embedText (fun _ => .error "provider down") 3 "query" =
        List.replicate 3 0 ∧
      (NSCCN.embedText (fun _ => .error "provider down") 3
          "query").length = 3 ∧
      "func:f.py:z" ∉
        (NSCCN.searchEntitiesByEmbedding NSCCN.c6Store [1] 10).map
          (fun r => r.1.id) :=
  have h1 := C6_zero_vector_excluded.1 (fun _ => .error "provider down")
    3 "query" "provider down" rfl
  have h2 := C6_zero_vector_excluded.2 NSCCN.c6Store [1] 10
    ⟨"func:f.py:z", "function", "f.py", "z", 1, 1, "def z()", "",
      some [0], 0⟩
    (by decide) (by decide)
    (Or.inr ⟨[0], rfl, by norm_num [NSCCN.sumSq]⟩)
  ⟨h1.1, h1.2, h2⟩

namespace NSCCN

/-- Shifting a `range'` by one against the mapped function. -/
theorem range'_shift_map {α : Type} (f : Nat → α) :
    ∀ (n a : Nat),
      (List.range' a n).map (fun i => f (i + 1)) =
        (List.range' (a + 1) n).map f := by
  intro n
  induction n with
  | zero => intro a; simp
  | succ n ih =>
    intro a
    rw [List.range'_succ, List.range'_succ]
    simp only [List.map_cons, ih]

end NSCCN

/-- C9 (amended): `open_surgical_window` never raises (it is a total
function into the payload type); it returns the `{'error': …}` payload
exactly when the entity id has no row *or* the entity's file cannot be
read; when the entity exists and its file is readable it returns
`{entity_id, file, start, end, code}` with `code` being the entity's
lines plus `context_lines` of context on each side, clipped to the file
boundaries, each line prefixed with its 1-based right-aligned line
number (the spec-side rendering `specWindowCode`). -/
theorem C9_surgical_window_amended :
    ∀ (db : NSCCN.Store) (fs : List (String × List String))
      (eid : String) (c : Nat),
      (NSCCN.getEntity db eid = none →
        NSCCN.openSurgicalWindow db fs eid c =
          .err ("Entity not found: " ++ eid)) ∧
      (∀ (ent : NSCCN.Entity) (lines : List String),
        NSCCN.getEntity db eid = some ent →
        fs.lookup ent.file_path = some lines →
        NSCCN.openSurgicalWindow db fs eid c =
          .ok eid ent.file_path ent.start_line ent.end_line
            (NSCCN.specWindowCode lines ent.start_line ent.end_line
              c)) ∧
      (∀ ent : NSCCN.Entity,
        NSCCN.getEntity db eid = some ent →
        fs.lookup ent.file_path = none →
        NSCCN.openSurgicalWindow db fs eid c =
          .err ("file read failed: " ++ ent.file_path)) := by
  intro db fs eid c
  refine ⟨?_, ?_, ?_⟩
  · intro hge
    unfold NSCCN.openSurgicalWindow
    simp only [hge]
  · intro ent lines hge hlk
    unfold NSCCN.openSurgicalWindow
    simp only [hge, hlk]
    unfold NSCCN.specWindowCode
    congr 1
    have hlo : max 1 (ent.start_line - c) =
        ent.start_line - 1 - c + 1 := by omega
    rw [hlo]
    have hcount :
        min lines.length (ent.end_line + c) + 1 -
            (ent.start_line - 1 - c + 1) =
          min lines.length (ent.end_line + c) -
            (ent.start_line - 1 - c) := by omega
    rw [hcount]
    rw [← NSCCN.range'_shift_map
      (fun ln => NSCCN.pad4 ln ++ " | " ++ ((lines.get? (ln - 1)).getD ""))]
    simp
  · intro ent hge hlk
    unfold NSCCN.openSurgicalWindow
    simp only [hge, hlk]

/-- C9 (counterexample): on a store whose entity `func:g.py:f` exists
but whose file is absent from the filesystem, the tool returns an error
payload even though the entity id has a row — refuting "otherwise
returns `{entity_id, file, start, end, code}`".  (The `except` branch
converts the failed `open()` into `{'error': …}`; it does not raise.) -/
theorem C9_counterexample :
    (NSCCN.getEntity NSCCN.c9Store "func:g.py:f").isSome ∧
      NSCCN.openSurgicalWindow NSCCN.c9Store [] "func:g.py:f" 5 =
        .err ("file read failed: " ++ "g.py") := by
  decide

/-- Witness for C9 (amended): entity `func:g.py:f` (lines 2–3) in the
five-line file with one context line on each side. -/
theorem C9_surgical_window_amended_witness :
    NSCCN.openSurgicalWindow NSCCN.c9Store NSCCN.c9Fs "func:g.py:f" 1 =
      .ok "func:g.py:f" "g.py" 2 3
        (NSCCN.specWindowCode
          ["import os", "def f():", "    return 1", "", "x = f()"] 2 3
          1) :=
  (C9_surgical_window_amended NSCCN.c9Store NSCCN.c9Fs "func:g.py:f"
      1).2.1
    ⟨"func:g.py:f", "function", "g.py", "f", 2, 3, "def f()", "", none,
      0⟩
    ["import os", "def f():", "    return 1", "", "x = f()"] rfl rfl

/-! ## Store lemmas for the builder's update handler (claim C1) -/

namespace NSCCN

/-- Upserting entities never touches the edges table. -/
theorem upsertEntitiesBatch_edges (es : List Entity) :
    ∀ db : Store, (upsertEntitiesBatch db es).edges = db.edges := by
  induction es with
  | nil => intro db; rfl
  | cons e es ih =>
    intro db
    simpa [upsertEntitiesBatch, upsertEntity] using
      ih { db with entities :=
        db.entities.filter (fun x => x.id ≠ e.id) ++ [e] }

/-- Membership after the per-removed-id edge deletions. -/
theorem deleteEdgesFold_mem (ids : List String) :
    ∀ (db : Store) (e : Edge),
      e ∈ (ids.foldl (fun s i => deleteEdgesBySource s i) db).edges ↔
        e ∈ db.edges ∧ e.src ∉ ids := by
  induction ids with
  | nil => simp
  | cons i ids ih =>
    intro db e
    simp only [List.foldl_cons]
    rw [ih]
    simp [deleteEdgesBySource, List.mem_filter]
    tauto

/-- The edge-batch result depends only on the incoming edge table. -/
theorem upsertEdgesBatch_edges_congr (es : List Edge) :
    ∀ st st' : Store, st.edges = st'.edges →
      (upsertEdgesBatch st es).edges = (upsertEdgesBatch st' es).edges := by
  induction es with
  | nil => intro st st' h; exact h
  | cons x es ih =>
    intro st st' h
    simp only [upsertEdgesBatch, List.foldl_cons]
    exact ih _ _ (by simp [upsertEdge, h])

/-- An edge whose key collides with no batch element survives the
batch upsert. -/
theorem upsertEdgesBatch_mem_of_no_key (es : List Edge) :
    ∀ (db : Store) (e : Edge), e ∈ db.edges →
      (∀ x ∈ es, ¬(e.src = x.src ∧ e.rel = x.rel ∧ e.tgt = x.tgt)) →
      e ∈ (upsertEdgesBatch db es).edges := by
  induction es with
  | nil => intro db e he _; exact he
  | cons x es ih =>
    intro db e he hkeys
    simp only [upsertEdgesBatch, List.foldl_cons]
    refine ih _ e ?_ (fun y hy => hkeys y (List.mem_cons_of_mem _ hy))
    simp only [upsertEdge, List.mem_append, List.mem_filter]
    refine Or.inl ⟨he, ?_⟩
    have := hkeys x (List.mem_cons_self _ _)
    simp only [decide_eq_true_eq]
    tauto

/-- Key presence survives a single edge upsert. -/
theorem upsertEdge_key_present (db : Store) (y : Edge) (a b c : String)
    (h : ∃ e' ∈ db.edges, e'.src = a ∧ e'.rel = b ∧ e'.tgt = c) :
    ∃ e' ∈ (upsertEdge db y).edges,
      e'.src = a ∧ e'.rel = b ∧ e'.tgt = c := by
  by_cases hk : y.src = a ∧ y.rel = b ∧ y.tgt = c
  · exact ⟨y, by simp [upsertEdge], hk⟩
  · obtain ⟨e', he', hK⟩ := h
    refine ⟨e', ?_, hK⟩
    simp only [upsertEdge, List.mem_append, List.mem_filter]
    refine Or.inl ⟨he', ?_⟩
    simp only [decide_eq_true_eq]
    intro hcol
    exact hk ⟨hcol.1 ▸ hK.1, hcol.2.1 ▸ hK.2.1, hcol.2.2 ▸ hK.2.2⟩

/-- Key presence survives a batch of edge upserts. -/
theorem upsertEdgesBatch_key_present (es : List Edge) :
    ∀ (db : Store) (a b c : String),
      (∃ e' ∈ db.edges, e'.src = a ∧ e'.rel = b ∧ e'.tgt = c) →
      ∃ e' ∈ (upsertEdgesBatch db es).edges,
        e'.src = a ∧ e'.rel = b ∧ e'.tgt = c := by
  induction es with
  | nil => intro db a b c h; exact h
  | cons y es ih =>
    intro db a b c h
    simp only [upsertEdgesBatch, List.foldl_cons]
    exact ih _ a b c (upsertEdge_key_present db y a b c h)

/-- Every batch element's key is present after the batch upsert. -/
theorem upsertEdgesBatch_mem_key (es : List Edge) :
    ∀ (db : Store) (x : Edge), x ∈ es →
      ∃ e' ∈ (upsertEdgesBatch db es).edges,
        e'.src = x.src ∧ e'.rel = x.rel ∧ e'.tgt = x.tgt := by
  induction es with
  | nil => intro db x hx; simp at hx
  | cons y es ih =>
    intro db x hx
    rcases List.mem_cons.mp hx with rfl | hx'
    · simp only [upsertEdgesBatch, List.foldl_cons]
      refine upsertEdgesBatch_key_present es _ _ _ _ ?_
      exact ⟨x, by simp [upsertEdge], rfl, rfl, rfl⟩
    · simp only [upsertEdgesBatch, List.foldl_cons]
      exact ih _ x hx'

/-- Edges after a batch upsert come from the old table or the batch. -/
theorem upsertEdgesBatch_mem_inv (es : List Edge) :
    ∀ (db : Store) (e : Edge),
      e ∈ (upsertEdgesBatch db es).edges → e ∈ db.edges ∨ e ∈ es := by
  induction es with
  | nil => intro db e he; exact Or.inl he
  | cons x es ih =>
    intro db e he
    simp only [upsertEdgesBatch, List.foldl_cons] at he
    rcases ih _ e he with h | h
    · simp only [upsertEdge, List.mem_append, List.mem_filter] at h
      rcases h with ⟨h, _⟩ | h
      · exact Or.inl h
      · simp only [List.mem_singleton] at h
        exact Or.inr (h ▸ List.mem_cons_self _ _)
    · exact Or.inr (List.mem_cons_of_mem _ h)

end NSCCN

/-- C1 (counterexample): entity `func:f.py:a` exists before and after
the update.  Before, it has the edge `func:f.py:a → func:f.py:old`; the
new parse produces only `func:f.py:a → func:f.py:new`.  After the
builder's created/modified handler runs, the old edge — absent from the
new parse — is still stored: `_handle_file_updated` deletes edges only
for *removed* entity ids, and `upsert_edges_batch` is an
`INSERT OR REPLACE` keyed on `(source, relation, target)`, which never
deletes a differently-keyed stale row. -/
theorem C1_counterexample :
    (⟨"func:f.py:a", "CALLS", "func:f.py:old", none⟩ : NSCCN.Edge) ∈
        (NSCCN.handleFileUpdated NSCCN.c1Store "f.py" true
          (some NSCCN.c1Parse) (fun _ => none)).edges ∧
      (⟨"func:f.py:a", "CALLS", "func:f.py:old", none⟩ : NSCCN.Edge) ∉
        NSCCN.c1Parse.edges ∧
      "func:f.py:a" ∈
        (NSCCN.getEntitiesByFile NSCCN.c1Store "f.py").map
          (fun e => e.id) ∧
      "func:f.py:a" ∈ NSCCN.c1Parse.entities.map (fun e => e.id) := by
  decide

/-- C1 (amended): after the handler runs on a parsed file, (i) every
edge of the new parse is present (by key) in the store; (ii) edges whose
source is a *removed* entity id are gone, provided the new parse emits
no edge from that id; (iii) but an old edge whose source id persists
across the update and whose key the new parse does not produce
*survives* — only removed ids' edges are deleted, not all edges of the
file. -/
theorem C1_amended :
    ∀ (db : NSCCN.Store) (fp : String) (pr : NSCCN.ParseResult)
      (embed : NSCCN.Entity → Option (List ℚ)),
      (∀ x ∈ pr.edges,
        ∃ e' ∈ (NSCCN.handleFileUpdated db fp true (some pr)
            embed).edges,
          e'.src = x.src ∧ e'.rel = x.rel ∧ e'.tgt = x.tgt) ∧
      (∀ e ∈ db.edges, e.src ∈ NSCCN.removedIds db fp pr →
        (∀ x ∈ pr.edges, x.src ≠ e.src) →
        e ∉ (NSCCN.handleFileUpdated db fp true (some pr)
          embed).edges) ∧
      (∀ e ∈ db.edges, e.src ∉ NSCCN.removedIds db fp pr →
        (∀ x ∈ pr.edges,
          ¬(e.src = x.src ∧ e.rel = x.rel ∧ e.tgt = x.tgt)) →
        e ∈ (NSCCN.handleFileUpdated db fp true (some pr)
          embed).edges) := by
  intro db fp pr embed
  set db1 := (NSCCN.removedIds db fp pr).foldl
    (fun s i => NSCCN.deleteEdgesBySource s i) db with hdb1
  set db3 := (if pr.entities ≠ [] then
      NSCCN.upsertEntitiesBatch (NSCCN.deleteEntitiesByFile db1 fp)
        (pr.entities.map (fun e => { e with embedding := embed e }))
    else NSCCN.deleteEntitiesByFile db1 fp) with hdb3
  have hrun : NSCCN.handleFileUpdated db fp true (some pr) embed =
      NSCCN.deleteSkeleton
        (if pr.edges ≠ [] then NSCCN.upsertEdgesBatch db3 pr.edges
         else db3) fp := rfl
  have hd3 : db3.edges = db1.edges := by
    rw [hdb3]
    split
    · exact NSCCN.upsertEntitiesBatch_edges _ _
    · rfl
  refine ⟨?_, ?_, ?_⟩
  · intro x hx
    have hne : pr.edges ≠ [] := List.ne_nil_of_mem hx
    have hedges : (NSCCN.handleFileUpdated db fp true (some pr)
        embed).edges = (NSCCN.upsertEdgesBatch db3 pr.edges).edges := by
      rw [hrun, if_pos hne]
      rfl
    rw [hedges]
    exact NSCCN.upsertEdgesBatch_mem_key pr.edges db3 x hx
  · intro e he hrem hnosrc habs
    have hnot1 : e ∉ db1.edges := by
      rw [hdb1]
      rw [NSCCN.deleteEdgesFold_mem]
      intro ⟨_, hns⟩
      exact hns hrem
    by_cases hne : pr.edges ≠ []
    · have hedges : (NSCCN.handleFileUpdated db fp true (some pr)
          embed).edges =
          (NSCCN.upsertEdgesBatch db3 pr.edges).edges := by
        rw [hrun, if_pos hne]
        rfl
      rw [hedges] at habs
      rcases NSCCN.upsertEdgesBatch_mem_inv pr.edges db3 e habs with
        h | h
      · rw [hd3] at h
        exact hnot1 h
      · exact hnosrc e h rfl
    · have hedges : (NSCCN.handleFileUpdated db fp true (some pr)
          embed).edges = db3.edges := by
        rw [hrun, if_neg hne]
        rfl
      rw [hedges, hd3] at habs
      exact hnot1 habs
  · intro e he hnotrem hnokey
    have h1 : e ∈ db1.edges := by
      rw [hdb1, NSCCN.deleteEdgesFold_mem]
      exact ⟨he, hnotrem⟩
    have h3 : e ∈ db3.edges := by rw [hd3]; exact h1
    by_cases hne : pr.edges ≠ []
    · have hedges : (NSCCN.handleFileUpdated db fp true (some pr)
          embed).edges =
          (NSCCN.upsertEdgesBatch db3 pr.edges).edges := by
        rw [hrun, if_pos hne]
        rfl
      rw [hedges]
      exact NSCCN.upsertEdgesBatch_mem_of_no_key pr.edges db3 e h3 hnokey
    · have hedges : (NSCCN.handleFileUpdated db fp true (some pr)
          embed).edges = db3.edges := by
        rw [hrun, if_neg hne]
        rfl
      rw [hedges]
      exact h3

/-- Witness for C1 (amended) at the counterexample instance: the new
parse's edge is present by key, and the stale old edge survives because
its source id is not removed and its key is not re-emitted. -/
theorem C1_amended_witness :
    (∃ e' ∈ (NSCCN.handleFileUpdated NSCCN.c1Store "f.py" true
        (some NSCCN.c1Parse) (fun _ => none)).edges,
      e'.src = "func:f.py:a" ∧ e'.rel = "CALLS" ∧
        e'.tgt = "func:f.py:new") ∧
      (⟨"func:f.py:a", "CALLS", "func:f.py:old", none⟩ : NSCCN.Edge) ∈
        (NSCCN.handleFileUpdated NSCCN.c1Store "f.py" true
          (some NSCCN.c1Parse) (fun _ => none)).edges :=
  ⟨(C1_amended NSCCN.c1Store "f.py" NSCCN.c1Parse (fun _ => none)).1
      ⟨"func:f.py:a", "CALLS", "func:f.py:new", none⟩ (by decide),
    (C1_amended NSCCN.c1Store "f.py" NSCCN.c1Parse (fun _ => none)).2.2
      ⟨"func:f.py:a", "CALLS", "func:f.py:old", none⟩ (by decide)
      (by decide) (by decide)⟩
